import Mathlib

/-!
Verification of the session/authentication core of the influencia backend:
the Redis-backed session store, the hybrid session/JWT guard, the OAuth token
encryption service and the fixed-window rate limiters. Each TypeScript
function is shallowly embedded as an executable Lean definition over an
explicit store state; the theorems below settle the specified properties.
-/

namespace Influencia

/-- Association-list lookup, modelling a string-keyed Redis keyspace. -/
def lookupA {α : Type} : List (String × α) → String → Option α
  | [], _ => none
  | (k, v) :: rest, key => if key = k then some v else lookupA rest key

/-- Insert or overwrite the value stored under a key. -/
def insertA {α : Type} : List (String × α) → String → α → List (String × α)
  | [], key, v => [(key, v)]
  | (k, w) :: rest, key, v =>
    if key = k then (key, v) :: rest else (k, w) :: insertA rest key v

/-- Delete a key (Redis DEL). -/
def removeA {α : Type} : List (String × α) → String → List (String × α)
  | [], _ => []
  | (k, w) :: rest, key =>
    if key = k then removeA rest key else (k, w) :: removeA rest key

theorem lookupA_insertA_self {α : Type} (l : List (String × α)) (k : String) (v : α) :
    lookupA (insertA l k v) k = some v := by
  induction l with
  | nil => simp [insertA, lookupA]
  | cons hd tl ih =>
    obtain ⟨k1, v1⟩ := hd
    by_cases h : k = k1 <;> simp [insertA, lookupA, h, ih]

theorem lookupA_insertA_ne {α : Type} (l : List (String × α)) {k k' : String} (v : α)
    (h : k' ≠ k) : lookupA (insertA l k v) k' = lookupA l k' := by
  induction l with
  | nil => simp [insertA, lookupA, h]
  | cons hd tl ih =>
    obtain ⟨k1, v1⟩ := hd
    by_cases h1 : k = k1
    · subst h1
      simp [insertA, lookupA, h]
    · by_cases h2 : k' = k1 <;> simp [insertA, lookupA, h1, h2, ih]

theorem lookupA_removeA_self {α : Type} (l : List (String × α)) (k : String) :
    lookupA (removeA l k) k = none := by
  induction l with
  | nil => simp [removeA, lookupA]
  | cons hd tl ih =>
    obtain ⟨k1, v1⟩ := hd
    by_cases h : k = k1
    · subst h
      simp [removeA, ih]
    · simp [removeA, lookupA, h, ih]

theorem lookupA_removeA_ne {α : Type} (l : List (String × α)) {k k' : String}
    (h : k' ≠ k) : lookupA (removeA l k) k' = lookupA l k' := by
  induction l with
  | nil => simp [removeA, lookupA]
  | cons hd tl ih =>
    obtain ⟨k1, v1⟩ := hd
    by_cases h1 : k = k1
    · subst h1
      simp [removeA, lookupA, h, ih]
    · by_cases h2 : k' = k1 <;> simp [removeA, lookupA, h1, h2, ih]

/-! ## Session store data model (SessionService, src/unnamed/part_006) -/

/-- The SessionData interface stored as JSON under `session:<id>`. Metadata is
an association list standing for the free-form record. -/
structure SessionData where
  sessionId : String
  userId : String
  email : String
  role : String
  tenantId : Option String
  createdAt : Nat
  lastAccessedAt : Nat
  userAgent : Option String
  ipAddress : Option String
  metadata : List (String × String)
deriving DecidableEq, Repr, Inhabited

/-- Options accepted by createSession. -/
structure CreateSessionOptions where
  userId : String
  email : String
  role : String
  tenantId : Option String
  userAgent : Option String
  ipAddress : Option String
  metadata : List (String × String)
deriving DecidableEq, Repr, Inhabited

/-- The slice of the Redis keyspace the session service touches: the JSON
session records (together with the TTL they were last written with), the
per-user session-id sets, and the TTL last set on each user-index key. -/
structure Store where
  sessions : List (String × SessionData × Nat)
  userIndex : List (String × List String)
  userIndexTTL : List (String × Nat)
deriving DecidableEq, Repr, Inhabited

/-- Default session TTL: 7 days in seconds. -/
def SESSION_TTL : Nat := 7 * 24 * 60 * 60

/-- Per-user session cap. -/
def MAX_SESSIONS_PER_USER : Nat := 5

/-- redisService.getJson on a `session:<id>` key. -/
def getJsonSession (st : Store) (sid : String) : Option SessionData :=
  (lookupA st.sessions sid).map (fun p => p.1)

/-- redisService.setJson on a `session:<id>` key with a TTL. -/
def setJsonSession (sid : String) (s : SessionData) (ttl : Nat) (st : Store) : Store :=
  { st with sessions := insertA st.sessions sid (s, ttl) }

/-- redisService.sAdd on a `user_sessions:<uid>` key (set semantics). -/
def sAddIndex (idx : List (String × List String)) (uid sid : String) :
    List (String × List String) :=
  let cur := (lookupA idx uid).getD []
  insertA idx uid (if sid ∈ cur then cur else cur ++ [sid])

/-- redisService.sRem on a `user_sessions:<uid>` key; Redis drops the key when
the set becomes empty. -/
def sRemIndex (idx : List (String × List String)) (uid sid : String) :
    List (String × List String) :=
  let rest := ((lookupA idx uid).getD []).filter (fun x => x != sid)
  if rest.isEmpty then removeA idx uid else insertA idx uid rest

/-- The record built at the top of createSession. -/
def mkSession (sid : String) (now : Nat) (o : CreateSessionOptions) : SessionData :=
  { sessionId := sid, userId := o.userId, email := o.email, role := o.role,
    tenantId := o.tenantId, createdAt := now, lastAccessedAt := now,
    userAgent := o.userAgent, ipAddress := o.ipAddress, metadata := o.metadata }

/-- Comparator used by getUserSessionsWithDetails: descending lastAccessedAt. -/
def descRel (a b : SessionData) : Prop := b.lastAccessedAt ≤ a.lastAccessedAt

/-- Comparator used by cleanupOldSessions: ascending lastAccessedAt. -/
def ascRel (a b : SessionData) : Prop := a.lastAccessedAt ≤ b.lastAccessedAt

instance : DecidableRel descRel := fun a b =>
  inferInstanceAs (Decidable (b.lastAccessedAt ≤ a.lastAccessedAt))

instance : DecidableRel ascRel := fun a b =>
  inferInstanceAs (Decidable (a.lastAccessedAt ≤ b.lastAccessedAt))

instance : IsTotal SessionData ascRel :=
  ⟨fun a b => Nat.le_total a.lastAccessedAt b.lastAccessedAt⟩

instance : IsTrans SessionData ascRel :=
  ⟨fun _ _ _ h1 h2 => Nat.le_trans h1 h2⟩

instance : IsTotal SessionData descRel :=
  ⟨fun a b => Nat.le_total b.lastAccessedAt a.lastAccessedAt⟩

instance : IsTrans SessionData descRel :=
  ⟨fun _ _ _ h1 h2 => Nat.le_trans h2 h1⟩

/-- SessionService.getUserSessions: SMEMBERS of the user-index key. -/
def getUserSessions (uid : String) (st : Store) : List String :=
  (lookupA st.userIndex uid).getD []

/-- SessionService.getUserSessionsWithDetails: fetch every indexed record,
drop the ids whose record is gone, sort by lastAccessedAt descending. -/
def getUserSessionsWithDetails (uid : String) (st : Store) : List SessionData :=
  let sessionIds := getUserSessions uid st
  let sessions := sessionIds.filterMap (fun sid => getJsonSession st sid)
  List.insertionSort descRel sessions

/-- SessionService.destroySession: remove the id from the owning user index
(when the record still exists), delete the record, report whether a record
was deleted. -/
def destroySession (sid : String) (st : Store) : Bool × Store :=
  let st1 :=
    match getJsonSession st sid with
    | some s => { st with userIndex := sRemIndex st.userIndex s.userId sid }
    | none => st
  let delCount : Nat := if (lookupA st1.sessions sid).isSome then 1 else 0
  (decide (0 < delCount), { st1 with sessions := removeA st1.sessions sid })

/-- SessionService.cleanupOldSessions: when the live-session count exceeds the
cap, sort ascending by lastAccessedAt and destroy the surplus oldest ones. -/
def cleanupOldSessions (uid : String) (st : Store) : Store :=
  let sessions := getUserSessionsWithDetails uid st
  if sessions.length ≤ MAX_SESSIONS_PER_USER then st
  else
    let sessionsToRemove :=
      (List.insertionSort ascRel sessions).take (sessions.length - MAX_SESSIONS_PER_USER)
    sessionsToRemove.foldl (fun s x => (destroySession x.sessionId s).2) st

/-- SessionService.createSession: persist the record with the full TTL, add
the id to the user index, refresh the index TTL, then enforce the cap. The
generated session id is taken as a parameter (it is produced by a
cryptographic RNG in the source). -/
def createSession (sid : String) (now : Nat) (o : CreateSessionOptions) (st : Store) :
    SessionData × Store :=
  let session := mkSession sid now o
  let st1 := setJsonSession sid session SESSION_TTL st
  let st2 := { st1 with userIndex := sAddIndex st1.userIndex o.userId sid }
  let st3 := { st2 with userIndexTTL := insertA st2.userIndexTTL o.userId SESSION_TTL }
  (session, cleanupOldSessions o.userId st3)

/-- SessionService.getSession: on a hit, bump lastAccessedAt and re-persist
with the full TTL (sliding expiration); on a miss return null. -/
def getSession (now : Nat) (sid : String) (st : Store) : Option SessionData × Store :=
  match getJsonSession st sid with
  | none => (none, st)
  | some s =>
    let s1 := { s with lastAccessedAt := now }
    (some s1, setJsonSession sid s1 SESSION_TTL st)

/-- SessionService.validateSession: wrap getSession, raising an
UnauthorizedException on null. -/
def validateSession (now : Nat) (sid : String) (st : Store) :
    Except String SessionData × Store :=
  match getSession now sid st with
  | (none, st1) => (Except.error "Invalid or expired session", st1)
  | (some s, st1) => (Except.ok s, st1)

/-- SessionService.destroyAllUserSessions: delete every record listed in the
user index, count the iterations, then delete the index key itself. -/
def destroyAllUserSessions (uid : String) (st : Store) : Nat × Store :=
  let sessionIds := getUserSessions uid st
  let st1 := sessionIds.foldl
    (fun s sid => { s with sessions := removeA s.sessions sid }) st
  let st2 := { st1 with
    userIndex := removeA st1.userIndex uid,
    userIndexTTL := removeA st1.userIndexTTL uid }
  (sessionIds.length, st2)

/-- JavaScript object-spread merge of two metadata records: keys of the old
record keep their position with patched values, new patch keys are appended. -/
def jsMerge (old patch : List (String × String)) : List (String × String) :=
  old.map (fun p => (p.1, (lookupA patch p.1).getD p.2)) ++
    patch.filter (fun p => (lookupA old p.1).isNone)

/-- SessionService.updateSessionMetadata: merge the patch into the stored
metadata, bump lastAccessedAt, re-persist with the full TTL; no-op returning
false when the record is gone. -/
def updateSessionMetadata (now : Nat) (sid : String)
    (patch : List (String × String)) (st : Store) : Bool × Store :=
  match getJsonSession st sid with
  | none => (false, st)
  | some s =>
    let s1 := { s with metadata := jsMerge s.metadata patch, lastAccessedAt := now }
    (true, setJsonSession sid s1 SESSION_TTL st)

/-! ## Claim C1: getSession / validateSession behaviour -/

/-- C1: when no record is stored under a session id, getSession returns null
leaving the store untouched (it never throws) and validateSession fails with
the invalid-or-expired-session AuthenticationError; when a record exists,
getSession returns it with lastAccessedAt set to the current time and
re-persists it under the full refreshed TTL, and validateSession returns that
same refreshed session without error. -/
theorem claim_C1_getSession_validateSession (now : Nat) (sid : String) (st : Store) :
    (lookupA st.sessions sid = none →
      getSession now sid st = (none, st) ∧
      validateSession now sid st = (Except.error "Invalid or expired session", st)) ∧
    (∀ s ttl, lookupA st.sessions sid = some (s, ttl) →
      getSession now sid st =
        (some { s with lastAccessedAt := now },
         setJsonSession sid { s with lastAccessedAt := now } SESSION_TTL st) ∧
      lookupA (getSession now sid st).2.sessions sid =
        some ({ s with lastAccessedAt := now }, SESSION_TTL) ∧
      validateSession now sid st =
        (Except.ok { s with lastAccessedAt := now },
         setJsonSession sid { s with lastAccessedAt := now } SESSION_TTL st)) := by
  constructor
  · intro hmiss
    simp [getSession, validateSession, getJsonSession, hmiss]
  · intro s ttl hhit
    refine ⟨?_, ?_, ?_⟩
    · simp [getSession, getJsonSession, hhit]
    · simp [getSession, getJsonSession, hhit, setJsonSession, lookupA_insertA_self]
    · simp [validateSession, getSession, getJsonSession, hhit]

/-- A concrete session record used by witnesses. -/
def exSession1 : SessionData where
  sessionId := "sid1"
  userId := "u1"
  email := "a@b.c"
  role := "creator"
  tenantId := none
  createdAt := 10
  lastAccessedAt := 10
  userAgent := none
  ipAddress := none
  metadata := []

/-- A concrete one-session store used by witnesses. -/
def exStore1 : Store where
  sessions := [("sid1", exSession1, 604800)]
  userIndex := [("u1", ["sid1"])]
  userIndexTTL := [("u1", 604800)]

/-- Witness for C1 at a concrete store: a missing id and a present id. -/
theorem claim_C1_witness :
    getSession 50 "missing" exStore1 = (none, exStore1) ∧
    (validateSession 50 "sid1" exStore1).1 =
      Except.ok { exSession1 with lastAccessedAt := 50 } := by
  constructor
  · exact ((claim_C1_getSession_validateSession 50 "missing" exStore1).1 (by decide)).1
  · have h := ((claim_C1_getSession_validateSession 50 "sid1" exStore1).2
      exSession1 604800 (by decide)).2.2
    rw [h]

/-! ## Claims C10 and C8: metadata update, logout-everywhere -/

theorem lookupA_append {α : Type} (l1 l2 : List (String × α)) (k : String) :
    lookupA (l1 ++ l2) k =
      ((lookupA l1 k).rec (lookupA l2 k) (fun v => some v) : Option α) := by
  induction l1 with
  | nil => simp [lookupA]
  | cons hd tl ih =>
    obtain ⟨k1, v1⟩ := hd
    by_cases h : k = k1 <;> simp [lookupA, h, ih]

theorem lookupA_map_keys {α β : Type} (l : List (String × α)) (g : String → α → β)
    (k : String) :
    lookupA (l.map (fun p => (p.1, g p.1 p.2))) k = (lookupA l k).map (g k) := by
  induction l with
  | nil => simp [lookupA]
  | cons hd tl ih =>
    obtain ⟨k1, v1⟩ := hd
    by_cases h : k = k1
    · subst h
      simp [lookupA]
    · simp [lookupA, h, ih]

theorem lookupA_filter_keep {α : Type} (l : List (String × α)) (p : String × α → Bool)
    (k : String) (h : ∀ v, p (k, v) = true) :
    lookupA (l.filter p) k = lookupA l k := by
  induction l with
  | nil => simp [lookupA]
  | cons hd tl ih =>
    obtain ⟨k1, v1⟩ := hd
    by_cases hk : k = k1
    · subst hk
      simp [lookupA, h v1, ih]
    · by_cases hp : p (k1, v1) = true
      · simp [lookupA, hp, hk, ih]
      · simp only [List.filter_cons]
        rw [Bool.not_eq_true] at hp
        simp [lookupA, hp, hk, ih]

/-- Key-level semantics of the object-spread merge: the patch wins, the old
record is the fallback. -/
theorem lookupA_jsMerge (old patch : List (String × String)) (k : String) :
    lookupA (jsMerge old patch) k =
      ((lookupA patch k).rec (lookupA old k) (fun v => some v) : Option String) := by
  unfold jsMerge
  rw [lookupA_append]
  rw [lookupA_map_keys old (fun key v => (lookupA patch key).getD v) k]
  cases hold : lookupA old k with
  | some v =>
    cases hp : lookupA patch k <;> simp [hp]
  | none =>
    have hf : lookupA (patch.filter (fun p => (lookupA old p.1).isNone)) k =
        lookupA patch k := by
      apply lookupA_filter_keep
      intro v
      simp [hold]
    rw [hf]
    cases hp : lookupA patch k <;> simp

/-- C10: on an existing session, updateSessionMetadata returns true, merges
the patch into the stored metadata (patch keys win, old keys survive), sets
lastAccessedAt to the current time, and re-persists the record with the full
TTL window, leaving every other field of the record, every other session key,
and the user indexes unchanged; on a missing session it returns false and
writes nothing. -/
theorem claim_C10_updateSessionMetadata (now : Nat) (sid : String)
    (patch : List (String × String)) (st : Store) :
    (lookupA st.sessions sid = none →
      updateSessionMetadata now sid patch st = (false, st)) ∧
    (∀ s ttl, lookupA st.sessions sid = some (s, ttl) →
      (updateSessionMetadata now sid patch st).1 = true ∧
      lookupA (updateSessionMetadata now sid patch st).2.sessions sid =
        some ({ s with metadata := jsMerge s.metadata patch,
                       lastAccessedAt := now }, SESSION_TTL) ∧
      (∀ k, lookupA (jsMerge s.metadata patch) k =
        ((lookupA patch k).rec (lookupA s.metadata k) (fun v => some v) : Option String)) ∧
      (∀ j, j ≠ sid →
        lookupA (updateSessionMetadata now sid patch st).2.sessions j =
          lookupA st.sessions j) ∧
      (updateSessionMetadata now sid patch st).2.userIndex = st.userIndex ∧
      (updateSessionMetadata now sid patch st).2.userIndexTTL = st.userIndexTTL) := by
  constructor
  · intro hmiss
    simp [updateSessionMetadata, getJsonSession, hmiss]
  · intro s ttl hhit
    refine ⟨?_, ?_, fun k => lookupA_jsMerge s.metadata patch k, ?_, ?_, ?_⟩
    · simp [updateSessionMetadata, getJsonSession, hhit]
    · simp [updateSessionMetadata, getJsonSession, hhit, setJsonSession,
        lookupA_insertA_self]
    · intro j hj
      simp [updateSessionMetadata, getJsonSession, hhit, setJsonSession,
        lookupA_insertA_ne _ _ hj]
    · simp [updateSessionMetadata, getJsonSession, hhit, setJsonSession]
    · simp [updateSessionMetadata, getJsonSession, hhit, setJsonSession]

/-- Witness for C10: patch overrides one key, adds one, session refreshed. -/
theorem claim_C10_witness :
    (updateSessionMetadata 99 "nope" [("a", "1")] exStore1 = (false, exStore1)) ∧
    (updateSessionMetadata 99 "sid1" [("a", "1")] exStore1).1 = true ∧
    lookupA (updateSessionMetadata 99 "sid1" [("a", "1")] exStore1).2.sessions "sid1" =
      some ({ exSession1 with metadata := [("a", "1")], lastAccessedAt := 99 },
        SESSION_TTL) := by
  refine ⟨?_, ?_, ?_⟩
  · exact (claim_C10_updateSessionMetadata 99 "nope" [("a", "1")] exStore1).1 (by decide)
  · exact ((claim_C10_updateSessionMetadata 99 "sid1" [("a", "1")] exStore1).2
      exSession1 604800 (by decide)).1
  · have h := ((claim_C10_updateSessionMetadata 99 "sid1" [("a", "1")] exStore1).2
      exSession1 604800 (by decide)).2.1
    rw [h]
    rfl

theorem foldl_removeSessions_lookup (ids : List String) (st : Store) (i : String) :
    lookupA ((ids.foldl
        (fun s sid => { s with sessions := removeA s.sessions sid }) st)).sessions i =
      if i ∈ ids then none else lookupA st.sessions i := by
  induction ids generalizing st with
  | nil => simp
  | cons j rest ih =>
    simp only [List.foldl_cons]
    rw [ih]
    by_cases hrest : i ∈ rest
    · simp [hrest]
    · by_cases hij : i = j
      · subst hij
        simp [hrest, lookupA_removeA_self]
      · simp [hrest, hij, lookupA_removeA_ne _ hij]

theorem foldl_removeSessions_userIndex (ids : List String) (st : Store) :
    ((ids.foldl
        (fun s sid => { s with sessions := removeA s.sessions sid }) st)).userIndex =
      st.userIndex := by
  induction ids generalizing st with
  | nil => rfl
  | cons j rest ih => simp only [List.foldl_cons]; rw [ih]

theorem foldl_removeSessions_userIndexTTL (ids : List String) (st : Store) :
    ((ids.foldl
        (fun s sid => { s with sessions := removeA s.sessions sid }) st)).userIndexTTL =
      st.userIndexTTL := by
  induction ids generalizing st with
  | nil => rfl
  | cons j rest ih => simp only [List.foldl_cons]; rw [ih]

/-- C8: destroyAllUserSessions deletes every session record listed in the
user index, deletes the index itself, and returns the number destroyed (the
count of listed records, each of which was live by hypothesis); afterwards
getUserSessions returns the empty collection. -/
theorem claim_C8_destroyAllUserSessions (uid : String) (st : Store) (ids : List String)
    (hidx : lookupA st.userIndex uid = some ids)
    (hlive : ∀ i ∈ ids, (lookupA st.sessions i).isSome = true) :
    (destroyAllUserSessions uid st).1 =
      (ids.filter (fun i => (lookupA st.sessions i).isSome)).length ∧
    (∀ i ∈ ids, lookupA (destroyAllUserSessions uid st).2.sessions i = none) ∧
    lookupA (destroyAllUserSessions uid st).2.userIndex uid = none ∧
    getUserSessions uid (destroyAllUserSessions uid st).2 = [] := by
  have hids : getUserSessions uid st = ids := by
    simp [getUserSessions, hidx]
  refine ⟨?_, ?_, ?_, ?_⟩
  · have hall : ids.filter (fun i => (lookupA st.sessions i).isSome) = ids :=
      List.filter_eq_self.mpr hlive
    simp [destroyAllUserSessions, hids, hall]
  · intro i hi
    simp only [destroyAllUserSessions, hids]
    rw [foldl_removeSessions_lookup]
    simp [hi]
  · simp only [destroyAllUserSessions, hids]
    rw [foldl_removeSessions_userIndex]
    exact lookupA_removeA_self st.userIndex uid
  · simp only [getUserSessions, destroyAllUserSessions, hids]
    rw [foldl_removeSessions_userIndex]
    rw [lookupA_removeA_self st.userIndex uid]
    rfl

/-- Witness for C8 on the concrete one-session store. -/
theorem claim_C8_witness :
    (destroyAllUserSessions "u1" exStore1).1 = 1 ∧
    getUserSessions "u1" (destroyAllUserSessions "u1" exStore1).2 = [] := by
  have h := claim_C8_destroyAllUserSessions "u1" exStore1 ["sid1"]
    (by decide) (by decide)
  exact ⟨h.1, h.2.2.2⟩

/-! ## Claim C3: capacity eviction on createSession -/

/-- The record stored under an id (defaulted when absent); used to phrase the
eviction ordering over ids. -/
def recAt (st : Store) (i : String) : SessionData :=
  (getJsonSession st i).getD default

/-- lastAccessedAt of the record stored under an id. -/
def lastOf (st : Store) (i : String) : Nat :=
  (recAt st i).lastAccessedAt

theorem filterMap_eq_map_of {α β : Type} (l : List α) (f : α → Option β) (g : α → β)
    (h : ∀ x ∈ l, f x = some (g x)) : l.filterMap f = l.map g := by
  induction l with
  | nil => rfl
  | cons a tl ih =>
    rw [List.filterMap_cons, h a (by simp), List.map_cons,
      ih (fun x hx => h x (by simp [hx]))]

theorem destroySession_sessions (sid : String) (st : Store) :
    ((destroySession sid st).2).sessions = removeA st.sessions sid := by
  unfold destroySession
  cases getJsonSession st sid <;> rfl

theorem foldl_destroy_lookup (rem : List SessionData) (st : Store) (j : String) :
    lookupA ((rem.foldl (fun s x => (destroySession x.sessionId s).2) st)).sessions j =
      if j ∈ rem.map (fun x => x.sessionId) then none else lookupA st.sessions j := by
  induction rem generalizing st with
  | nil => simp
  | cons x rest ih =>
    simp only [List.foldl_cons, List.map_cons, List.mem_cons]
    rw [ih]
    by_cases hrest : j ∈ rest.map (fun x => x.sessionId)
    · simp [hrest]
    · by_cases hx : j = x.sessionId
      · simp [hrest, hx, destroySession_sessions, lookupA_removeA_self]
      · simp [hrest, hx, destroySession_sessions, lookupA_removeA_ne _ hx]

/-- C3: when a user with at least cap-many live, index-consistent sessions
(all pairwise-distinct lastAccessedAt, all strictly older than the creation
time) creates a new session, exactly the surplus oldest sessions are
destroyed: the new session survives with the full TTL, the number of
destroyed prior sessions is the surplus, every destroyed session is strictly
older than every kept one, and the kept ones are stored unchanged. -/
theorem claim_C3_capacity_eviction (sid : String) (now : Nat)
    (o : CreateSessionOptions) (st : Store) (ids : List String)
    (hidx : lookupA st.userIndex o.userId = some ids)
    (hnodup : ids.Nodup)
    (hrec : ∀ i ∈ ids, ∃ d t, lookupA st.sessions i = some (d, t) ∧
      d.userId = o.userId ∧ d.sessionId = i ∧ d.lastAccessedAt < now)
    (hdist : ids.Pairwise (fun a b => lastOf st a ≠ lastOf st b))
    (hnew : sid ∉ ids)
    (hcap : MAX_SESSIONS_PER_USER ≤ ids.length) :
    lookupA (createSession sid now o st).2.sessions sid =
      some (mkSession sid now o, SESSION_TTL) ∧
    (ids.filter (fun i =>
      (lookupA (createSession sid now o st).2.sessions i).isNone)).length =
      ids.length + 1 - MAX_SESSIONS_PER_USER ∧
    (∀ i ∈ ids, ∀ j ∈ ids,
      lookupA (createSession sid now o st).2.sessions i = none →
      (lookupA (createSession sid now o st).2.sessions j).isSome = true →
      lastOf st i < lastOf st j) ∧
    (∀ j ∈ ids, (lookupA (createSession sid now o st).2.sessions j).isSome = true →
      lookupA (createSession sid now o st).2.sessions j = lookupA st.sessions j) := by
  classical
  set newS := mkSession sid now o with hnewSdef
  set st3 : Store :=
    { sessions := insertA st.sessions sid (newS, SESSION_TTL),
      userIndex := sAddIndex st.userIndex o.userId sid,
      userIndexTTL := insertA st.userIndexTTL o.userId SESSION_TTL } with hst3
  have hcreate : (createSession sid now o st).2 = cleanupOldSessions o.userId st3 := rfl
  have hidx3 : lookupA st3.userIndex o.userId = some (ids ++ [sid]) := by
    show lookupA (sAddIndex st.userIndex o.userId sid) o.userId = some (ids ++ [sid])
    unfold sAddIndex
    rw [hidx]
    simp [hnew, lookupA_insertA_self]
  have hne_sid : ∀ i ∈ ids, i ≠ sid := fun i hi h => hnew (h ▸ hi)
  have hjson : ∀ i ∈ ids, getJsonSession st3 i = some (recAt st i) ∧
      (recAt st i).sessionId = i ∧ (recAt st i).userId = o.userId ∧
      (recAt st i).lastAccessedAt < now := by
    intro i hi
    obtain ⟨d, t, hl, h1, h2, h3⟩ := hrec i hi
    have hgj : getJsonSession st i = some d := by simp [getJsonSession, hl]
    have hr : recAt st i = d := by simp [recAt, hgj]
    have hgj3 : getJsonSession st3 i = some d := by
      show ((lookupA (insertA st.sessions sid (newS, SESSION_TTL)) i).map
        (fun p => p.1)) = some d
      rw [lookupA_insertA_ne _ _ (hne_sid i hi), hl]
      rfl
    rw [hr]
    exact ⟨hgj3, h2, h1, h3⟩
  have hjsid : getJsonSession st3 sid = some newS := by
    show ((lookupA (insertA st.sessions sid (newS, SESSION_TTL)) sid).map
      (fun p => p.1)) = some newS
    rw [lookupA_insertA_self]
    rfl
  have hmd : (ids ++ [sid]).filterMap (fun i => getJsonSession st3 i) =
      ids.map (recAt st) ++ [newS] := by
    rw [List.filterMap_append]
    rw [filterMap_eq_map_of ids _ (recAt st) (fun i hi => (hjson i hi).1)]
    simp [hjsid]
  set olds := ids.map (recAt st) with holds
  set details := olds ++ [newS] with hdetails
  have hgusd : getUserSessionsWithDetails o.userId st3 =
      List.insertionSort descRel details := by
    unfold getUserSessionsWithDetails getUserSessions
    rw [hidx3]
    simp only [Option.getD_some]
    rw [hmd]
  set sl := List.insertionSort descRel details with hsl
  have hlen_details : details.length = ids.length + 1 := by
    simp [hdetails, holds]
  have hlen_sl : sl.length = ids.length + 1 := by
    rw [hsl, List.length_insertionSort]
    exact hlen_details
  have hMAX : MAX_SESSIONS_PER_USER = 5 := rfl
  have hgt : ¬ (sl.length ≤ MAX_SESSIONS_PER_USER) := by
    rw [hlen_sl, hMAX]
    rw [hMAX] at hcap
    omega
  set k := sl.length - MAX_SESSIONS_PER_USER with hk
  set asc := List.insertionSort ascRel sl with hasc
  set rem := asc.take k with hrem
  set keep := asc.drop k with hkeep
  have hcleanup : cleanupOldSessions o.userId st3 =
      rem.foldl (fun s x => (destroySession x.sessionId s).2) st3 := by
    unfold cleanupOldSessions
    rw [hgusd]
    rw [if_neg hgt]
  have hperm : asc.Perm details :=
    (List.perm_insertionSort ascRel sl).trans (List.perm_insertionSort descRel details)
  have hsorted : asc.Sorted ascRel := List.sorted_insertionSort ascRel sl
  have hlen_asc : asc.length = ids.length + 1 := by
    rw [hasc, List.length_insertionSort]
    exact hlen_sl
  have hOlds : ∀ x ∈ olds, x.sessionId ∈ ids ∧ x = recAt st x.sessionId ∧
      x.lastAccessedAt < now := by
    intro x hx
    obtain ⟨i, hi, hxi⟩ := List.mem_map.mp hx
    obtain ⟨_, h2, _, h4⟩ := hjson i hi
    refine ⟨?_, ?_, ?_⟩
    · rw [← hxi, h2]
      exact hi
    · rw [← hxi, h2]
    · rw [← hxi]
      exact h4
  have hNewLast : newS.lastAccessedAt = now := rfl
  have hNewNotOlds : newS ∉ olds := by
    intro hmem
    have := (hOlds newS hmem).2.2
    rw [hNewLast] at this
    omega
  have hOldsNodup : olds.Nodup := by
    refine List.Nodup.map_on ?_ hnodup
    intro x hx y hy hxy
    have h2x := (hjson x hx).2.1
    have h2y := (hjson y hy).2.1
    rw [← h2x, ← h2y, hxy]
  have hDetailsNodup : details.Nodup := by
    rw [hdetails, List.nodup_append]
    refine ⟨hOldsNodup, List.nodup_singleton newS, ?_⟩
    intro a ha hb
    rw [List.mem_singleton] at hb
    subst hb
    exact hNewNotOlds ha
  have hNodupAsc : asc.Nodup := hperm.nodup_iff.mpr hDetailsNodup
  have hsplit : rem ++ keep = asc := List.take_append_drop k asc
  have hcross : ∀ x ∈ rem, ∀ y ∈ keep, ascRel x y := by
    intro x hx y hy
    exact hsorted.rel_of_mem_take_of_mem_drop hx hy
  have hdisj : ∀ a, a ∈ rem → a ∈ keep → False := by
    have hn : (rem ++ keep).Nodup := by
      rw [hsplit]
      exact hNodupAsc
    intro a ha hb
    exact List.disjoint_of_nodup_append hn ha hb
  have hkeeplen : keep.length = MAX_SESSIONS_PER_USER := by
    rw [hkeep, List.length_drop, hlen_asc, hk, hlen_sl, hMAX]
    rw [hMAX] at hcap
    omega
  have hremlen : rem.length = k := by
    rw [hrem, List.length_take]
    rw [hk, hlen_asc, hlen_sl]
    omega
  have hDetMem : ∀ y ∈ details, y ∈ olds ∨ y = newS := by
    intro y hy
    rcases List.mem_append.mp hy with h | h
    · exact Or.inl h
    · exact Or.inr (List.mem_singleton.mp h)
  have hNewNotRem : newS ∉ rem := by
    intro hinrem
    have hkeepne : keep ≠ [] := by
      intro h
      rw [h] at hkeeplen
      rw [hMAX] at hkeeplen
      simp at hkeeplen
    obtain ⟨y, hy⟩ := List.exists_mem_of_ne_nil keep hkeepne
    have hyasc : y ∈ asc := by
      rw [← hsplit]
      exact List.mem_append_right _ hy
    have hydet : y ∈ details := hperm.mem_iff.mp hyasc
    rcases hDetMem y hydet with hyold | hynew
    · have h1 := hcross newS hinrem y hy
      have h2 := (hOlds y hyold).2.2
      unfold ascRel at h1
      rw [hNewLast] at h1
      omega
    · rw [hynew] at hy
      exact hdisj newS hinrem hy
  have hRemOlds : ∀ x ∈ rem, x ∈ olds := by
    intro x hx
    have hxasc : x ∈ asc := by
      rw [← hsplit]
      exact List.mem_append_left _ hx
    rcases hDetMem x (hperm.mem_iff.mp hxasc) with h | h
    · exact h
    · rw [h] at hx
      exact absurd hx hNewNotRem
  set rs := rem.map (fun x => x.sessionId) with hrs
  have hrs_sub : ∀ i ∈ rs, i ∈ ids := by
    intro i hi
    obtain ⟨x, hx, hxi⟩ := List.mem_map.mp hi
    rw [← hxi]
    exact (hOlds x (hRemOlds x hx)).1
  have hRemNodup : rem.Nodup := List.Nodup.sublist (List.take_sublist k asc) hNodupAsc
  have hrs_nodup : rs.Nodup := by
    refine List.Nodup.map_on ?_ hRemNodup
    intro x hx y hy hxy
    have h1 := (hOlds x (hRemOlds x hx)).2.1
    have h2 := (hOlds y (hRemOlds y hy)).2.1
    rw [h1, h2, hxy]
  have hfinal : ∀ j, lookupA (createSession sid now o st).2.sessions j =
      if j ∈ rs then none else lookupA st3.sessions j := by
    intro j
    rw [hcreate, hcleanup]
    exact foldl_destroy_lookup rem st3 j
  have hsidrs : sid ∉ rs := fun h => hnew (hrs_sub sid h)
  have hst3lookup : ∀ i ∈ ids, lookupA st3.sessions i = lookupA st.sessions i := by
    intro i hi
    show lookupA (insertA st.sessions sid (newS, SESSION_TTL)) i = lookupA st.sessions i
    exact lookupA_insertA_ne _ _ (hne_sid i hi)
  have hst3some : ∀ i ∈ ids, (lookupA st3.sessions i).isSome = true := by
    intro i hi
    obtain ⟨d, t, hl, _, _, _⟩ := hrec i hi
    rw [hst3lookup i hi, hl]
    rfl
  refine ⟨?_, ?_, ?_, ?_⟩
  · rw [hfinal sid, if_neg hsidrs]
    show lookupA (insertA st.sessions sid (newS, SESSION_TTL)) sid = some (newS, SESSION_TTL)
    exact lookupA_insertA_self _ _ _
  · have hfc : ids.filter (fun i =>
        (lookupA (createSession sid now o st).2.sessions i).isNone) =
        ids.filter (fun i => decide (i ∈ rs)) := by
      apply List.filter_congr
      intro i hi
      rw [hfinal i]
      by_cases h : i ∈ rs
      · simp [h]
      · rw [if_neg h, decide_eq_false h]
        have hsome := hst3some i hi
        cases hx : lookupA st3.sessions i with
        | none =>
          rw [hx] at hsome
          simp at hsome
        | some v => rfl
    rw [hfc]
    have hpermf : (ids.filter (fun i => decide (i ∈ rs))).Perm rs := by
      rw [List.perm_ext_iff_of_nodup (List.Nodup.filter _ hnodup) hrs_nodup]
      intro a
      simp only [List.mem_filter, decide_eq_true_eq]
      constructor
      · intro h
        exact h.2
      · intro h
        exact ⟨hrs_sub a h, h⟩
    rw [hpermf.length_eq]
    rw [hrs, List.length_map, hremlen, hk, hlen_sl]
  · intro i hi j hj hinone hjsome
    have hirs : i ∈ rs := by
      by_contra h
      rw [hfinal i, if_neg h] at hinone
      have := hst3some i hi
      rw [hinone] at this
      simp at this
    have hjrs : j ∉ rs := by
      intro h
      rw [hfinal j, if_pos h] at hjsome
      simp at hjsome
    obtain ⟨x, hxrem, hxi⟩ := List.mem_map.mp hirs
    have hxolds := hRemOlds x hxrem
    have hxrec : x = recAt st i := by
      rw [← hxi]
      exact (hOlds x hxolds).2.1
    have hyolds : recAt st j ∈ olds := List.mem_map_of_mem (recAt st) hj
    have hyasc : recAt st j ∈ asc :=
      hperm.mem_iff.mpr (List.mem_append_left _ hyolds)
    have hykeep : recAt st j ∈ keep := by
      rcases List.mem_append.mp (by rw [hsplit]; exact hyasc :
        recAt st j ∈ rem ++ keep) with h | h
      · exfalso
        apply hjrs
        have : (recAt st j).sessionId = j := (hjson j hj).2.1
        rw [← this]
        exact List.mem_map_of_mem _ h
      · exact h
    have hle : ascRel x (recAt st j) := hcross x hxrem _ hykeep
    unfold ascRel at hle
    rw [hxrec] at hle
    have hij : i ≠ j := by
      intro h
      rw [h] at hirs
      exact hjrs hirs
    have hneq : lastOf st i ≠ lastOf st j := by
      have hsymm : Symmetric (fun a b => lastOf st a ≠ lastOf st b) :=
        fun a b h => h.symm
      exact hdist.forall hsymm hi hj hij
    unfold lastOf at hneq
    unfold lastOf
    omega
  · intro j hj hjsome
    have hjrs : j ∉ rs := by
      intro h
      rw [hfinal j, if_pos h] at hjsome
      simp at hjsome
    rw [hfinal j, if_neg hjrs]
    exact hst3lookup j hj

/-- A concrete session record generator for the eviction witness. -/
def exSessN (i : String) (last : Nat) : SessionData where
  sessionId := i
  userId := "u"
  email := "u@x.y"
  role := "brand"
  tenantId := none
  createdAt := last
  lastAccessedAt := last
  userAgent := none
  ipAddress := none
  metadata := []

/-- A store holding five live sessions for user u, lastAccessedAt 1..5. -/
def exStore5 : Store where
  sessions :=
    [("a", exSessN "a" 1, 604800), ("b", exSessN "b" 2, 604800),
     ("c", exSessN "c" 3, 604800), ("d", exSessN "d" 4, 604800),
     ("e", exSessN "e" 5, 604800)]
  userIndex := [("u", ["a", "b", "c", "d", "e"])]
  userIndexTTL := [("u", 604800)]

/-- Creation options for the eviction witness. -/
def exOpts : CreateSessionOptions where
  userId := "u"
  email := "u@x.y"
  role := "brand"
  tenantId := none
  userAgent := none
  ipAddress := none
  metadata := []

theorem exStore5_records : ∀ i ∈ ["a", "b", "c", "d", "e"],
    ∃ d t, lookupA exStore5.sessions i = some (d, t) ∧
      d.userId = exOpts.userId ∧ d.sessionId = i ∧ d.lastAccessedAt < 10 := by
  intro i hi
  fin_cases hi
  · exact ⟨exSessN "a" 1, 604800, by decide, rfl, rfl, by decide⟩
  · exact ⟨exSessN "b" 2, 604800, by decide, rfl, rfl, by decide⟩
  · exact ⟨exSessN "c" 3, 604800, by decide, rfl, rfl, by decide⟩
  · exact ⟨exSessN "d" 4, 604800, by decide, rfl, rfl, by decide⟩
  · exact ⟨exSessN "e" 5, 604800, by decide, rfl, rfl, by decide⟩

/-- Witness for C3: a sixth session for a user at the cap of five keeps the
new session and destroys exactly one prior session. -/
theorem claim_C3_witness :
    lookupA (createSession "f" 10 exOpts exStore5).2.sessions "f" =
      some (mkSession "f" 10 exOpts, SESSION_TTL) ∧
    (["a", "b", "c", "d", "e"].filter (fun i =>
      (lookupA (createSession "f" 10 exOpts exStore5).2.sessions i).isNone)).length = 1 := by
  have h := claim_C3_capacity_eviction "f" 10 exOpts exStore5 ["a", "b", "c", "d", "e"]
    (by decide) (by decide) exStore5_records (by decide) (by decide) (by decide)
  exact ⟨h.1, h.2.1⟩

/-! ## Claim C2: HybridAuthGuard (src/src/auth/guards/session-auth.guard.ts) -/

/-- The fields of the incoming request the guard consults. Header values are
absent (none) or present; a present empty string is falsy in the source. -/
structure Request where
  xSessionId : Option String
  cookieSessionId : Option String
  authorization : Option String
deriving DecidableEq, Repr

/-- The request-scoped identity populated by the guard. -/
structure AuthUser where
  userId : String
  email : String
  role : String
  tenantId : Option String
  sessionId : Option String
deriving DecidableEq, Repr

/-- The JWT payload shape jwtService.verify yields. -/
structure JwtPayload where
  sub : String
  email : String
  role : String
  tenant_id : Option String
deriving DecidableEq, Repr

/-- Terminal per-request outcomes of canActivate. -/
inductive GuardResult
  | authenticated (user : AuthUser)
  | rejected (message : String)
deriving DecidableEq, Repr

/-- HybridAuthGuard.extractSessionId: the dedicated header first, else the
cookie; empty strings are falsy and skipped. -/
def extractSessionId (req : Request) : Option String :=
  match req.xSessionId with
  | some h =>
    if h = "" then
      match req.cookieSessionId with
      | some c => if c = "" then none else some c
      | none => none
    else some h
  | none =>
    match req.cookieSessionId with
    | some c => if c = "" then none else some c
    | none => none

/-- The seven characters of the required Bearer prefix. -/
def bearerChars : List Char := ['B', 'e', 'a', 'r', 'e', 'r', ' ']

/-- HybridAuthGuard.extractJwt: strip a required Bearer space prefix from the
Authorization header (startsWith plus substring(7), modelled on the character
list of the header). -/
def extractJwt (req : Request) : Option String :=
  match req.authorization with
  | some h =>
    if h.toList.take 7 = bearerChars then some (String.mk (h.toList.drop 7)) else none
  | none => none

/-- The JWT fallback half of HybridAuthGuard.canActivate (source lines
109-126): reject without credentials, verify the token, populate a
session-less identity. -/
def jwtFallback (verify : String → Except String JwtPayload) (req : Request)
    (st : Store) : GuardResult × Store :=
  match extractJwt req with
  | none => (GuardResult.rejected "No authentication credentials provided", st)
  | some token =>
    if token = "" then
      (GuardResult.rejected "No authentication credentials provided", st)
    else
      match verify token with
      | Except.ok payload =>
        (GuardResult.authenticated
          { userId := payload.sub, email := payload.email, role := payload.role,
            tenantId := payload.tenant_id, sessionId := none }, st)
      | Except.error _ => (GuardResult.rejected "Invalid or expired token", st)

/-- HybridAuthGuard.canActivate: try the session path first; on any session
validation failure fall through to the JWT fallback. -/
def canActivate (verify : String → Except String JwtPayload) (now : Nat)
    (req : Request) (st : Store) : GuardResult × Store :=
  match extractSessionId req with
  | some sid =>
    match validateSession now sid st with
    | (Except.ok s, st1) =>
      (GuardResult.authenticated
        { userId := s.userId, email := s.email, role := s.role,
          tenantId := s.tenantId, sessionId := some s.sessionId }, st1)
    | (Except.error _, st1) => jwtFallback verify req st1
  | none => jwtFallback verify req st

/-- C2: the hybrid guard is session-first with token fallback: a request
whose extracted session id resolves to a stored record authenticates with the
full session identity (including sessionId) for any Authorization header; a
request whose session id does not resolve falls through to the token path
exactly; with no (or an empty) bearer token it then rejects with the
no-credentials message; and a session-less request with a verifying bearer
token authenticates with an identity that carries no sessionId. -/
theorem claim_C2_hybrid_guard (verify : String → Except String JwtPayload)
    (now : Nat) (req : Request) (st : Store) :
    (∀ sid s ttl, extractSessionId req = some sid →
      lookupA st.sessions sid = some (s, ttl) →
      (canActivate verify now req st).1 =
        GuardResult.authenticated
          { userId := s.userId, email := s.email, role := s.role,
            tenantId := s.tenantId, sessionId := some s.sessionId } ∧
      (∀ a, (canActivate verify now { req with authorization := a } st).1 =
        (canActivate verify now req st).1)) ∧
    (∀ sid, extractSessionId req = some sid →
      lookupA st.sessions sid = none →
      canActivate verify now req st = jwtFallback verify req st) ∧
    ((extractSessionId req = none ∨
        (∃ sid, extractSessionId req = some sid ∧ lookupA st.sessions sid = none)) →
      (extractJwt req = none ∨ extractJwt req = some "") →
      (canActivate verify now req st).1 =
        GuardResult.rejected "No authentication credentials provided") ∧
    (∀ t payload, extractSessionId req = none →
      extractJwt req = some t → t ≠ "" → verify t = Except.ok payload →
      (canActivate verify now req st).1 =
        GuardResult.authenticated
          { userId := payload.sub, email := payload.email, role := payload.role,
            tenantId := payload.tenant_id, sessionId := none }) := by
  have hval_ok : ∀ sid s ttl, lookupA st.sessions sid = some (s, ttl) →
      validateSession now sid st =
        (Except.ok { s with lastAccessedAt := now },
         setJsonSession sid { s with lastAccessedAt := now } SESSION_TTL st) := by
    intro sid s ttl h
    simp [validateSession, getSession, getJsonSession, h]
  have hval_err : ∀ sid, lookupA st.sessions sid = none →
      validateSession now sid st = (Except.error "Invalid or expired session", st) := by
    intro sid h
    simp [validateSession, getSession, getJsonSession, h]
  refine ⟨?_, ?_, ?_, ?_⟩
  · intro sid s ttl hsid hrec
    have hext : extractSessionId { req with authorization := none } = extractSessionId req := rfl
    constructor
    · simp [canActivate, hsid, hval_ok sid s ttl hrec]
    · intro a
      have hsida : extractSessionId { req with authorization := a } = some sid := hsid
      simp [canActivate, hsid, hsida, hval_ok sid s ttl hrec]
  · intro sid hsid hrec
    simp [canActivate, hsid, hval_err sid hrec]
  · intro hsess hjwt
    have hfb : (jwtFallback verify req st).1 =
        GuardResult.rejected "No authentication credentials provided" := by
      rcases hjwt with h | h <;> simp [jwtFallback, h]
    rcases hsess with h | ⟨sid, hsid, hrec⟩
    · simp only [canActivate, h]
      exact hfb
    · simp only [canActivate, hsid]
      rw [hval_err sid hrec]
      exact hfb
  · intro t payload hsid hjwt hne hverify
    simp [canActivate, hsid, jwtFallback, hjwt, hne, hverify]

/-- A concrete verifier for the C2 witness. -/
def exVerify (t : String) : Except String JwtPayload :=
  if t = "tok" then
    Except.ok { sub := "u9", email := "u9@x.y", role := "creator", tenant_id := none }
  else Except.error "jwt malformed"

/-- Witness for C2: a session request authenticates with sessionId even with
a bad bearer token present; a bearer-only request authenticates without a
sessionId; a bare request is rejected for lack of credentials. -/
theorem claim_C2_witness :
    (canActivate exVerify 50
        { xSessionId := some "sid1", cookieSessionId := none,
          authorization := some "Bearer garbage" } exStore1).1 =
      GuardResult.authenticated
        { userId := "u1", email := "a@b.c", role := "creator",
          tenantId := none, sessionId := some "sid1" } ∧
    (canActivate exVerify 50
        { xSessionId := none, cookieSessionId := none,
          authorization := some "Bearer tok" } exStore1).1 =
      GuardResult.authenticated
        { userId := "u9", email := "u9@x.y", role := "creator",
          tenantId := none, sessionId := none } ∧
    (canActivate exVerify 50
        { xSessionId := none, cookieSessionId := none,
          authorization := none } exStore1).1 =
      GuardResult.rejected "No authentication credentials provided" := by
  refine ⟨?_, ?_, ?_⟩
  · exact ((claim_C2_hybrid_guard exVerify 50
      { xSessionId := some "sid1", cookieSessionId := none,
        authorization := some "Bearer garbage" } exStore1).1
      "sid1" exSession1 604800 (by decide) (by decide)).1
  · exact (claim_C2_hybrid_guard exVerify 50
      { xSessionId := none, cookieSessionId := none,
        authorization := some "Bearer tok" } exStore1).2.2.2
      "tok" { sub := "u9", email := "u9@x.y", role := "creator", tenant_id := none }
      (by decide) (by decide) (by decide) rfl
  · exact (claim_C2_hybrid_guard exVerify 50
      { xSessionId := none, cookieSessionId := none,
        authorization := none } exStore1).2.2.1
      (Or.inl (by decide)) (Or.inl (by decide))

/-! ## Rate limiters (src/src/common/common.module.ts middleware) -/

/-- The counter slice of the Redis keyspace: per key a count and an optional
absolute expiry time in seconds. Redis expires keys lazily: an entry whose
expiry is not in the future behaves as absent. -/
structure CounterStore where
  counters : List (String × Nat × Option Nat)
deriving DecidableEq, Repr, Inhabited

/-- The live entry under a key at a given time (expired entries are gone). -/
def liveEntry (now : Nat) (st : CounterStore) (key : String) : Option (Nat × Option Nat) :=
  match lookupA st.counters key with
  | some (c, some e) => if now < e then some (c, some e) else none
  | some (c, none) => some (c, none)
  | none => none

/-- redisService.incr: create-or-increment; a freshly created key has no TTL. -/
def incrOp (now : Nat) (key : String) (st : CounterStore) : Nat × CounterStore :=
  match liveEntry now st key with
  | some (c, e) => (c + 1, { counters := insertA st.counters key (c + 1, e) })
  | none => (1, { counters := insertA st.counters key (1, none) })

/-- redisService.expire: set the TTL of an existing key. -/
def expireOp (now : Nat) (key : String) (secs : Nat) (st : CounterStore) :
    Bool × CounterStore :=
  match liveEntry now st key with
  | some (c, _) => (true, { counters := insertA st.counters key (c, some (now + secs)) })
  | none => (false, st)

/-- redisService.ttl: remaining seconds, -1 for no TTL, -2 for a missing key. -/
def ttlOp (now : Nat) (key : String) (st : CounterStore) : Int :=
  match liveEntry now st key with
  | some (_, some e) => (e : Int) - (now : Int)
  | some (_, none) => -1
  | none => -2

/-- Which of the three store round trips fail with a store error during one
request (Redis unavailability). -/
structure Health where
  incrFails : Bool
  expireFails : Bool
  ttlFails : Bool
deriving DecidableEq, Repr

/-- Outcome of one pass through a rate-limit middleware. -/
inductive RlOutcome
  | allowed
  | rejected (statusCode : Nat) (message : String) (retryAfter : Int)
deriving DecidableEq, Repr

/-- Result of one pass: response headers set so far, outcome, store. -/
structure RlResult where
  headers : List (String × Int)
  outcome : RlOutcome
  store : CounterStore
deriving DecidableEq, Repr

/-- Window and cap of a rate-limit middleware configuration. -/
structure RateLimitConfig where
  windowMs : Nat
  maxRequests : Nat
  message : String
deriving DecidableEq, Repr

/-- General limiter configuration: 100 requests per minute. -/
def generalConfig : RateLimitConfig where
  windowMs := 60 * 1000
  maxRequests := 100
  message := "Too many requests, please try again later."

/-- Auth limiter configuration: 10 attempts per 15 minutes. -/
def authConfig : RateLimitConfig where
  windowMs := 15 * 60 * 1000
  maxRequests := 10
  message := "Too many login attempts, please try again later."

/-- Shared tail of both middlewares after the increment and conditional
expire: read the TTL, set headers, throw 429 past the cap. The general
limiter sets the Reset header, the auth limiter does not (mirrored by the
resetHeader flag fixed per caller). -/
def rlFinish (cfg : RateLimitConfig) (resetHeader : Bool) (h : Health) (now : Nat)
    (key : String) (current : Nat) (st : CounterStore) : RlResult :=
  if h.ttlFails then { headers := [], outcome := RlOutcome.allowed, store := st }
  else
    let t := ttlOp now key st
    let hdrs :=
      if resetHeader then
        [("X-RateLimit-Limit", (cfg.maxRequests : Int)),
         ("X-RateLimit-Remaining", (max 0 ((cfg.maxRequests : Int) - (current : Int)))),
         ("X-RateLimit-Reset", (now : Int) * 1000 + t * 1000)]
      else
        [("X-RateLimit-Limit", (cfg.maxRequests : Int)),
         ("X-RateLimit-Remaining", (max 0 ((cfg.maxRequests : Int) - (current : Int))))]
    if cfg.maxRequests < current then
      { headers := hdrs, outcome := RlOutcome.rejected 429 cfg.message t, store := st }
    else { headers := hdrs, outcome := RlOutcome.allowed, store := st }

/-- RateLimitMiddleware.use (general limiter): increment, set the window TTL
only when the increment result is 1, emit the three headers, reject past the
cap with retryAfter = ttl; any store error is swallowed and the request is
allowed (fail open). -/
def rateLimitUse (h : Health) (now : Nat) (ip : String) (st : CounterStore) : RlResult :=
  let key := "ratelimit:" ++ ip
  if h.incrFails then { headers := [], outcome := RlOutcome.allowed, store := st }
  else
    let r1 := incrOp now key st
    let current := r1.1
    if current = 1 then
      if h.expireFails then { headers := [], outcome := RlOutcome.allowed, store := r1.2 }
      else
        let r2 := expireOp now key ((generalConfig.windowMs + 999) / 1000) r1.2
        rlFinish generalConfig true h now key current r2.2
    else rlFinish generalConfig true h now key current r1.2

/-- AuthRateLimitMiddleware.use: identical algorithm on the
ratelimit:auth:<ip> key with the stricter config, but it only sets the Limit
and Remaining headers. -/
def authRateLimitUse (h : Health) (now : Nat) (ip : String) (st : CounterStore) : RlResult :=
  let key := "ratelimit:auth:" ++ ip
  if h.incrFails then { headers := [], outcome := RlOutcome.allowed, store := st }
  else
    let r1 := incrOp now key st
    let current := r1.1
    if current = 1 then
      if h.expireFails then { headers := [], outcome := RlOutcome.allowed, store := r1.2 }
      else
        let r2 := expireOp now key ((authConfig.windowMs + 999) / 1000) r1.2
        rlFinish authConfig false h now key current r2.2
    else rlFinish authConfig false h now key current r1.2

/-- An all-healthy store schedule. -/
def healthOk : Health where
  incrFails := false
  expireFails := false
  ttlFails := false

theorem liveEntry_some_ttl {now : Nat} {st : CounterStore} {key : String} {c e : Nat}
    (h : liveEntry now st key = some (c, some e)) :
    lookupA st.counters key = some (c, some e) ∧ now < e := by
  unfold liveEntry at h
  cases hl : lookupA st.counters key with
  | none =>
    rw [hl] at h
    simp at h
  | some p =>
    obtain ⟨c1, eo⟩ := p
    cases eo with
    | none =>
      rw [hl] at h
      simp at h
    | some e1 =>
      rw [hl] at h
      by_cases hlt : now < e1
      · simp [hlt] at h
        obtain ⟨h1, h2⟩ := h
        subst h1
        subst h2
        exact ⟨rfl, hlt⟩
      · simp [hlt] at h

theorem liveEntry_expired {now : Nat} {st : CounterStore} {key : String} {c e : Nat}
    (hl : lookupA st.counters key = some (c, some e)) (he : e ≤ now) :
    liveEntry now st key = none := by
  unfold liveEntry
  rw [hl]
  simp [show ¬ (now < e) from by omega]

/-- C6: per request on either limiter with a healthy store, the counter is
incremented atomically; the window TTL is installed only when the increment
result is 1 (fresh window, 60s general, 900s auth); a request whose
incremented count stays within the cap is allowed with the window expiry
untouched; a request beyond the cap is rejected with status 429 and
retryAfter equal to the remaining TTL, which is positive; and once the window
has expired the counter restarts at 1 with a fresh TTL and the request is
allowed again. -/
theorem claim_C6_fixed_window (now : Nat) (ip : String) (st : CounterStore) :
    (liveEntry now st ("ratelimit:" ++ ip) = none →
      (rateLimitUse healthOk now ip st).outcome = RlOutcome.allowed ∧
      lookupA (rateLimitUse healthOk now ip st).store.counters ("ratelimit:" ++ ip) =
        some (1, some (now + 60))) ∧
    (∀ c e, liveEntry now st ("ratelimit:" ++ ip) = some (c, some e) → 0 < c →
      c + 1 ≤ 100 →
      (rateLimitUse healthOk now ip st).outcome = RlOutcome.allowed ∧
      lookupA (rateLimitUse healthOk now ip st).store.counters ("ratelimit:" ++ ip) =
        some (c + 1, some e)) ∧
    (∀ c e, liveEntry now st ("ratelimit:" ++ ip) = some (c, some e) → 0 < c →
      100 < c + 1 →
      (rateLimitUse healthOk now ip st).outcome =
        RlOutcome.rejected 429 "Too many requests, please try again later."
          ((e : Int) - (now : Int)) ∧
      0 < (e : Int) - (now : Int) ∧
      lookupA (rateLimitUse healthOk now ip st).store.counters ("ratelimit:" ++ ip) =
        some (c + 1, some e)) ∧
    (∀ c e, lookupA st.counters ("ratelimit:" ++ ip) = some (c, some e) → e ≤ now →
      (rateLimitUse healthOk now ip st).outcome = RlOutcome.allowed ∧
      lookupA (rateLimitUse healthOk now ip st).store.counters ("ratelimit:" ++ ip) =
        some (1, some (now + 60))) ∧
    (liveEntry now st ("ratelimit:auth:" ++ ip) = none →
      (authRateLimitUse healthOk now ip st).outcome = RlOutcome.allowed ∧
      lookupA (authRateLimitUse healthOk now ip st).store.counters
        ("ratelimit:auth:" ++ ip) = some (1, some (now + 900))) ∧
    (∀ c e, liveEntry now st ("ratelimit:auth:" ++ ip) = some (c, some e) → 0 < c →
      c + 1 ≤ 10 →
      (authRateLimitUse healthOk now ip st).outcome = RlOutcome.allowed ∧
      lookupA (authRateLimitUse healthOk now ip st).store.counters
        ("ratelimit:auth:" ++ ip) = some (c + 1, some e)) ∧
    (∀ c e, liveEntry now st ("ratelimit:auth:" ++ ip) = some (c, some e) → 0 < c →
      10 < c + 1 →
      (authRateLimitUse healthOk now ip st).outcome =
        RlOutcome.rejected 429 "Too many login attempts, please try again later."
          ((e : Int) - (now : Int)) ∧
      0 < (e : Int) - (now : Int) ∧
      lookupA (authRateLimitUse healthOk now ip st).store.counters
        ("ratelimit:auth:" ++ ip) = some (c + 1, some e)) ∧
    (∀ c e, lookupA st.counters ("ratelimit:auth:" ++ ip) = some (c, some e) →
      e ≤ now →
      (authRateLimitUse healthOk now ip st).outcome = RlOutcome.allowed ∧
      lookupA (authRateLimitUse healthOk now ip st).store.counters
        ("ratelimit:auth:" ++ ip) = some (1, some (now + 900))) := by
  have hfreshG : liveEntry now st ("ratelimit:" ++ ip) = none →
      (rateLimitUse healthOk now ip st).outcome = RlOutcome.allowed ∧
      lookupA (rateLimitUse healthOk now ip st).store.counters ("ratelimit:" ++ ip) =
        some (1, some (now + 60)) := by
    intro hfresh
    have h1 : incrOp now ("ratelimit:" ++ ip) st =
        (1, { counters := insertA st.counters ("ratelimit:" ++ ip) (1, none) }) := by
      simp [incrOp, hfresh]
    have h2 : liveEntry now
        { counters := insertA st.counters ("ratelimit:" ++ ip) (1, none) }
        ("ratelimit:" ++ ip) = some (1, none) := by
      simp [liveEntry, lookupA_insertA_self]
    have h3 : expireOp now ("ratelimit:" ++ ip) 60
        { counters := insertA st.counters ("ratelimit:" ++ ip) (1, none) } =
        (true,
          { counters :=
              insertA (insertA st.counters ("ratelimit:" ++ ip) (1, none))
                ("ratelimit:" ++ ip) (1, some (now + 60)) }) := by
      simp [expireOp, h2]
    have h4 : liveEntry now
        { counters :=
            insertA (insertA st.counters ("ratelimit:" ++ ip) (1, none))
              ("ratelimit:" ++ ip) (1, some (now + 60)) }
        ("ratelimit:" ++ ip) = some (1, some (now + 60)) := by
      simp [liveEntry, lookupA_insertA_self, show now < now + 60 from by omega]
    constructor <;>
      simp [rateLimitUse, healthOk, h1, h3, h4, rlFinish, ttlOp, generalConfig,
        lookupA_insertA_self]
  have hfreshA : liveEntry now st ("ratelimit:auth:" ++ ip) = none →
      (authRateLimitUse healthOk now ip st).outcome = RlOutcome.allowed ∧
      lookupA (authRateLimitUse healthOk now ip st).store.counters
        ("ratelimit:auth:" ++ ip) = some (1, some (now + 900)) := by
    intro hfresh
    have h1 : incrOp now ("ratelimit:auth:" ++ ip) st =
        (1, { counters := insertA st.counters ("ratelimit:auth:" ++ ip) (1, none) }) := by
      simp [incrOp, hfresh]
    have h2 : liveEntry now
        { counters := insertA st.counters ("ratelimit:auth:" ++ ip) (1, none) }
        ("ratelimit:auth:" ++ ip) = some (1, none) := by
      simp [liveEntry, lookupA_insertA_self]
    have h3 : expireOp now ("ratelimit:auth:" ++ ip) 900
        { counters := insertA st.counters ("ratelimit:auth:" ++ ip) (1, none) } =
        (true,
          { counters :=
              insertA (insertA st.counters ("ratelimit:auth:" ++ ip) (1, none))
                ("ratelimit:auth:" ++ ip) (1, some (now + 900)) }) := by
      simp [expireOp, h2]
    have h4 : liveEntry now
        { counters :=
            insertA (insertA st.counters ("ratelimit:auth:" ++ ip) (1, none))
              ("ratelimit:auth:" ++ ip) (1, some (now + 900)) }
        ("ratelimit:auth:" ++ ip) = some (1, some (now + 900)) := by
      simp [liveEntry, lookupA_insertA_self, show now < now + 900 from by omega]
    constructor <;>
      simp [authRateLimitUse, healthOk, h1, h3, h4, rlFinish, ttlOp, authConfig,
        lookupA_insertA_self]
  refine ⟨hfreshG, ?_, ?_, ?_, hfreshA, ?_, ?_, ?_⟩
  · intro c e hlive hc hcap
    have hnow := (liveEntry_some_ttl hlive).2
    have h1 : incrOp now ("ratelimit:" ++ ip) st =
        (c + 1,
          { counters :=
              insertA st.counters ("ratelimit:" ++ ip) (c + 1, some e) }) := by
      simp [incrOp, hlive]
    have h2 : liveEntry now
        { counters := insertA st.counters ("ratelimit:" ++ ip) (c + 1, some e) }
        ("ratelimit:" ++ ip) = some (c + 1, some e) := by
      simp [liveEntry, lookupA_insertA_self, hnow]
    constructor <;>
      simp [rateLimitUse, healthOk, h1, h2, rlFinish, ttlOp, generalConfig,
        lookupA_insertA_self, show ¬ (c + 1 = 1) from by omega,
        show ¬ (100 < c + 1) from by omega]
  · intro c e hlive hc hcap
    have hnow := (liveEntry_some_ttl hlive).2
    have h1 : incrOp now ("ratelimit:" ++ ip) st =
        (c + 1,
          { counters :=
              insertA st.counters ("ratelimit:" ++ ip) (c + 1, some e) }) := by
      simp [incrOp, hlive]
    have h2 : liveEntry now
        { counters := insertA st.counters ("ratelimit:" ++ ip) (c + 1, some e) }
        ("ratelimit:" ++ ip) = some (c + 1, some e) := by
      simp [liveEntry, lookupA_insertA_self, hnow]
    refine ⟨?_, by omega, ?_⟩ <;>
      simp [rateLimitUse, healthOk, h1, h2, rlFinish, ttlOp, generalConfig,
        lookupA_insertA_self, show ¬ (c + 1 = 1) from by omega, hcap]
  · intro c e hlook he
    exact hfreshG (liveEntry_expired hlook he)
  · intro c e hlive hc hcap
    have hnow := (liveEntry_some_ttl hlive).2
    have h1 : incrOp now ("ratelimit:auth:" ++ ip) st =
        (c + 1,
          { counters :=
              insertA st.counters ("ratelimit:auth:" ++ ip) (c + 1, some e) }) := by
      simp [incrOp, hlive]
    have h2 : liveEntry now
        { counters := insertA st.counters ("ratelimit:auth:" ++ ip) (c + 1, some e) }
        ("ratelimit:auth:" ++ ip) = some (c + 1, some e) := by
      simp [liveEntry, lookupA_insertA_self, hnow]
    constructor <;>
      simp [authRateLimitUse, healthOk, h1, h2, rlFinish, ttlOp, authConfig,
        lookupA_insertA_self, show ¬ (c + 1 = 1) from by omega,
        show ¬ (10 < c + 1) from by omega]
  · intro c e hlive hc hcap
    have hnow := (liveEntry_some_ttl hlive).2
    have h1 : incrOp now ("ratelimit:auth:" ++ ip) st =
        (c + 1,
          { counters :=
              insertA st.counters ("ratelimit:auth:" ++ ip) (c + 1, some e) }) := by
      simp [incrOp, hlive]
    have h2 : liveEntry now
        { counters := insertA st.counters ("ratelimit:auth:" ++ ip) (c + 1, some e) }
        ("ratelimit:auth:" ++ ip) = some (c + 1, some e) := by
      simp [liveEntry, lookupA_insertA_self, hnow]
    refine ⟨?_, by omega, ?_⟩ <;>
      simp [authRateLimitUse, healthOk, h1, h2, rlFinish, ttlOp, authConfig,
        lookupA_insertA_self, show ¬ (c + 1 = 1) from by omega, hcap]
  · intro c e hlook he
    exact hfreshA (liveEntry_expired hlook he)

/-- A counter store at the general cap, 30 seconds left in the window. -/
def exCounters : CounterStore where
  counters := [("ratelimit:1.2.3.4", 100, some 30)]

/-- Witness for C6: the first request of a window is allowed and installs the
TTL; request 101 in a live window is rejected with retryAfter 30. -/
theorem claim_C6_witness :
    (rateLimitUse healthOk 7 "1.2.3.4" { counters := [] }).outcome =
      RlOutcome.allowed ∧
    lookupA (rateLimitUse healthOk 7 "1.2.3.4" { counters := [] }).store.counters
      "ratelimit:1.2.3.4" = some (1, some 67) ∧
    (rateLimitUse healthOk 0 "1.2.3.4" exCounters).outcome =
      RlOutcome.rejected 429 "Too many requests, please try again later." 30 := by
  have h1 := (claim_C6_fixed_window 7 "1.2.3.4" { counters := [] }).1 (by decide)
  have h2 := ((claim_C6_fixed_window 0 "1.2.3.4" exCounters).2.2.1 100 30
    (by decide) (by decide) (by decide)).1
  exact ⟨h1.1, h1.2, h2⟩

/-- C7: on either limiter, a store error in any of the three KV round trips
(increment, expire, ttl) makes the middleware allow the request (fail open);
conversely a rejected outcome can only be the deliberate 429
too-many-requests signal produced after a successful increment past the cap
with a successful ttl read. -/
theorem claim_C7_fail_open (h : Health) (now : Nat) (ip : String) (st : CounterStore) :
    (h.incrFails = true →
      (rateLimitUse h now ip st).outcome = RlOutcome.allowed ∧
      (authRateLimitUse h now ip st).outcome = RlOutcome.allowed) ∧
    (h.ttlFails = true →
      (rateLimitUse h now ip st).outcome = RlOutcome.allowed ∧
      (authRateLimitUse h now ip st).outcome = RlOutcome.allowed) ∧
    (h.expireFails = true → liveEntry now st ("ratelimit:" ++ ip) = none →
      (rateLimitUse h now ip st).outcome = RlOutcome.allowed) ∧
    (h.expireFails = true → liveEntry now st ("ratelimit:auth:" ++ ip) = none →
      (authRateLimitUse h now ip st).outcome = RlOutcome.allowed) ∧
    (∀ sc m r, (rateLimitUse h now ip st).outcome = RlOutcome.rejected sc m r →
      h.incrFails = false ∧ h.ttlFails = false ∧ sc = 429 ∧
      m = "Too many requests, please try again later." ∧
      100 < (incrOp now ("ratelimit:" ++ ip) st).1) ∧
    (∀ sc m r, (authRateLimitUse h now ip st).outcome = RlOutcome.rejected sc m r →
      h.incrFails = false ∧ h.ttlFails = false ∧ sc = 429 ∧
      m = "Too many login attempts, please try again later." ∧
      10 < (incrOp now ("ratelimit:auth:" ++ ip) st).1) := by
  refine ⟨?_, ?_, ?_, ?_, ?_, ?_⟩
  · intro hi
    constructor <;> simp [rateLimitUse, authRateLimitUse, hi]
  · intro ht
    constructor
    · unfold rateLimitUse
      by_cases hi : h.incrFails
      · simp [hi]
      · by_cases h1 : (incrOp now ("ratelimit:" ++ ip) st).1 = 1
        · by_cases hx : h.expireFails <;> simp [hi, h1, hx, rlFinish, ht]
        · simp [hi, h1, rlFinish, ht]
    · unfold authRateLimitUse
      by_cases hi : h.incrFails
      · simp [hi]
      · by_cases h1 : (incrOp now ("ratelimit:auth:" ++ ip) st).1 = 1
        · by_cases hx : h.expireFails <;> simp [hi, h1, hx, rlFinish, ht]
        · simp [hi, h1, rlFinish, ht]
  · intro hx hfresh
    unfold rateLimitUse
    by_cases hi : h.incrFails
    · simp [hi]
    · simp [hi, incrOp, hfresh, hx]
  · intro hx hfresh
    unfold authRateLimitUse
    by_cases hi : h.incrFails
    · simp [hi]
    · simp [hi, incrOp, hfresh, hx]
  · intro sc m r hrej
    unfold rateLimitUse at hrej
    by_cases hi : h.incrFails
    · simp [hi] at hrej
    · by_cases h1 : (incrOp now ("ratelimit:" ++ ip) st).1 = 1
      · by_cases hx : h.expireFails
        · simp [hi, h1, hx] at hrej
        · by_cases ht : h.ttlFails
          · simp [hi, h1, hx, rlFinish, ht] at hrej
          · simp [hi, h1, hx, rlFinish, ht, generalConfig] at hrej
      · by_cases ht : h.ttlFails
        · simp [hi, h1, rlFinish, ht] at hrej
        · by_cases hc : 100 < (incrOp now ("ratelimit:" ++ ip) st).1
          · simp [hi, h1, rlFinish, ht, generalConfig, hc] at hrej
            refine ⟨by simpa using hi, by simpa using ht, hrej.1.symm,
              hrej.2.1.symm, hc⟩
          · simp [hi, h1, rlFinish, ht, generalConfig, hc] at hrej
  · intro sc m r hrej
    unfold authRateLimitUse at hrej
    by_cases hi : h.incrFails
    · simp [hi] at hrej
    · by_cases h1 : (incrOp now ("ratelimit:auth:" ++ ip) st).1 = 1
      · by_cases hx : h.expireFails
        · simp [hi, h1, hx] at hrej
        · by_cases ht : h.ttlFails
          · simp [hi, h1, hx, rlFinish, ht] at hrej
          · simp [hi, h1, hx, rlFinish, ht, authConfig] at hrej
      · by_cases ht : h.ttlFails
        · simp [hi, h1, rlFinish, ht] at hrej
        · by_cases hc : 10 < (incrOp now ("ratelimit:auth:" ++ ip) st).1
          · simp [hi, h1, rlFinish, ht, authConfig, hc] at hrej
            refine ⟨by simpa using hi, by simpa using ht, hrej.1.symm,
              hrej.2.1.symm, hc⟩
          · simp [hi, h1, rlFinish, ht, authConfig, hc] at hrej

/-- Witness for C7: a failing increment and a failing ttl read both fail
open on concrete stores. -/
theorem claim_C7_witness :
    (rateLimitUse { incrFails := true, expireFails := false, ttlFails := false }
      0 "1.2.3.4" exCounters).outcome = RlOutcome.allowed ∧
    (authRateLimitUse { incrFails := false, expireFails := false, ttlFails := true }
      0 "1.2.3.4" exCounters).outcome = RlOutcome.allowed := by
  constructor
  · exact ((claim_C7_fail_open
      { incrFails := true, expireFails := false, ttlFails := false }
      0 "1.2.3.4" exCounters).1 rfl).1
  · exact ((claim_C7_fail_open
      { incrFails := false, expireFails := false, ttlFails := true }
      0 "1.2.3.4" exCounters).2.1 rfl).2

/-- C9 counterexample: the auth rate limiter never sets X-RateLimit-Reset;
on a concrete first request it emits exactly Limit and Remaining, so the
claim that every response through either limiter carries all three headers
is false. -/
theorem claim_C9_counterexample :
    (authRateLimitUse healthOk 0 "1.2.3.4" { counters := [] }).headers =
      [("X-RateLimit-Limit", 10), ("X-RateLimit-Remaining", 9)] ∧
    "X-RateLimit-Reset" ∉
      ((authRateLimitUse healthOk 0 "1.2.3.4" { counters := [] }).headers.map
        (fun p => p.1)) := by
  constructor
  · rfl
  · decide

/-- C9 amended: when the store round trips succeed, every response through
the general limiter (allowed or rejected) carries X-RateLimit-Limit,
X-RateLimit-Remaining and X-RateLimit-Reset & every response through the
auth-specific limiter carries only X-RateLimit-Limit and X-RateLimit-Remaining
(never X-RateLimit-Reset), with Remaining = max 0 (cap minus count) in both. -/
theorem claim_C9_rate_limit_headers (h : Health) (now : Nat) (ip : String)
    (st : CounterStore) (hi : h.incrFails = false) (hx : h.expireFails = false)
    (ht : h.ttlFails = false) :
    (rateLimitUse h now ip st).headers.map (fun p => p.1) =
      ["X-RateLimit-Limit", "X-RateLimit-Remaining", "X-RateLimit-Reset"] ∧
    (lookupA ((rateLimitUse h now ip st).headers) "X-RateLimit-Remaining" =
      some (max 0 (100 - ((incrOp now ("ratelimit:" ++ ip) st).1 : Int)))) ∧
    (authRateLimitUse h now ip st).headers.map (fun p => p.1) =
      ["X-RateLimit-Limit", "X-RateLimit-Remaining"] ∧
    (lookupA ((authRateLimitUse h now ip st).headers) "X-RateLimit-Remaining" =
      some (max 0 (10 - ((incrOp now ("ratelimit:auth:" ++ ip) st).1 : Int)))) ∧
    "X-RateLimit-Reset" ∉
      ((authRateLimitUse h now ip st).headers.map (fun p => p.1)) := by
  have hG : ∀ current st2, (rlFinish generalConfig true h now ("ratelimit:" ++ ip)
      current st2).headers =
      [("X-RateLimit-Limit", (100 : Int)),
       ("X-RateLimit-Remaining", max 0 (100 - (current : Int))),
       ("X-RateLimit-Reset", (now : Int) * 1000 +
         ttlOp now ("ratelimit:" ++ ip) st2 * 1000)] := by
    intro current st2
    by_cases hc : 100 < current <;> simp [rlFinish, ht, generalConfig, hc]
  have hA : ∀ current st2, (rlFinish authConfig false h now ("ratelimit:auth:" ++ ip)
      current st2).headers =
      [("X-RateLimit-Limit", (10 : Int)),
       ("X-RateLimit-Remaining", max 0 (10 - (current : Int)))] := by
    intro current st2
    by_cases hc : 10 < current <;> simp [rlFinish, ht, authConfig, hc]
  have hGheaders : ∃ st2, (rateLimitUse h now ip st).headers =
      [("X-RateLimit-Limit", (100 : Int)),
       ("X-RateLimit-Remaining",
         max 0 (100 - ((incrOp now ("ratelimit:" ++ ip) st).1 : Int))),
       ("X-RateLimit-Reset", (now : Int) * 1000 +
         ttlOp now ("ratelimit:" ++ ip) st2 * 1000)] := by
    unfold rateLimitUse
    by_cases h1 : (incrOp now ("ratelimit:" ++ ip) st).1 = 1
    · refine ⟨(expireOp now ("ratelimit:" ++ ip)
        ((generalConfig.windowMs + 999) / 1000)
        (incrOp now ("ratelimit:" ++ ip) st).2).2, ?_⟩
      simp only [hi, hx, h1, Bool.false_eq_true, if_false, if_true, hG]
    · exact ⟨(incrOp now ("ratelimit:" ++ ip) st).2,
        by simp only [hi, h1, Bool.false_eq_true, if_false, hG]⟩
  have hAheaders : (authRateLimitUse h now ip st).headers =
      [("X-RateLimit-Limit", (10 : Int)),
       ("X-RateLimit-Remaining",
         max 0 (10 - ((incrOp now ("ratelimit:auth:" ++ ip) st).1 : Int)))] := by
    unfold authRateLimitUse
    by_cases h1 : (incrOp now ("ratelimit:auth:" ++ ip) st).1 = 1
    · simp only [hi, hx, h1, Bool.false_eq_true, if_false, if_true, hA]
    · simp only [hi, h1, Bool.false_eq_true, if_false, hA]
  obtain ⟨st2, hGh⟩ := hGheaders
  refine ⟨?_, ?_, ?_, ?_, ?_⟩
  · rw [hGh]
    rfl
  · rw [hGh]
    simp [lookupA]
  · rw [hAheaders]
    rfl
  · rw [hAheaders]
    simp [lookupA]
  · rw [hAheaders]
    simp

/-- Witness for the amended C9 on a concrete first request: the general
limiter emits the three headers, the auth limiter the two. -/
theorem claim_C9_witness :
    (rateLimitUse healthOk 0 "1.2.3.4" { counters := [] }).headers.map
      (fun p => p.1) =
      ["X-RateLimit-Limit", "X-RateLimit-Remaining", "X-RateLimit-Reset"] ∧
    (authRateLimitUse healthOk 0 "1.2.3.4" { counters := [] }).headers.map
      (fun p => p.1) = ["X-RateLimit-Limit", "X-RateLimit-Remaining"] := by
  have h := claim_C9_rate_limit_headers healthOk 0 "1.2.3.4" { counters := [] }
    rfl rfl rfl
  exact ⟨h.1, h.2.2.1⟩

/-! ## Token encryption (src/src/social/security/token-encryption.service.ts)

Plaintexts, keys, IVs, tags and ciphertexts are byte lists; the encrypted
blob is a character list (the JS string). The AES-256-GCM primitive of the
node crypto library is abstracted as a `GcmCipher` bundle whose laws state
the correctness and tamper-evidence of an ideal authenticated cipher; base64
is modelled concretely, including the leniency of Buffer.from(s, 'base64'),
which skips non-alphabet characters and drops leftover bits. -/

/-- The standard base64 alphabet. -/
def b64Alphabet : List Char :=
  ['A', 'B', 'C', 'D', 'E', 'F', 'G', 'H', 'I', 'J', 'K', 'L', 'M',
   'N', 'O', 'P', 'Q', 'R', 'S', 'T', 'U', 'V', 'W', 'X', 'Y', 'Z',
   'a', 'b', 'c', 'd', 'e', 'f', 'g', 'h', 'i', 'j', 'k', 'l', 'm',
   'n', 'o', 'p', 'q', 'r', 's', 't', 'u', 'v', 'w', 'x', 'y', 'z',
   '0', '1', '2', '3', '4', '5', '6', '7', '8', '9', '+', '/']

/-- The alphabet character for a 6-bit value. -/
def b64Char (n : Nat) : Char := b64Alphabet.getD n 'A'

def b64ValAux : List Char → Nat → Char → Option Nat
  | [], _, _ => none
  | a :: rest, i, c => if c = a then some i else b64ValAux rest (i + 1) c

/-- The 6-bit value of an alphabet character (none for anything else). -/
def b64Val (c : Char) : Option Nat := b64ValAux b64Alphabet 0 c

/-- Base64 encoding of a byte list, three bytes to four characters with
trailing '=' padding. -/
def b64EncodeChunks : List Nat → List Char
  | [] => []
  | [a] => [b64Char (a / 4), b64Char ((a % 4) * 16), '=', '=']
  | [a, b] => [b64Char (a / 4), b64Char ((a % 4) * 16 + b / 16),
      b64Char ((b % 16) * 4), '=']
  | a :: b :: c :: rest =>
    [b64Char (a / 4), b64Char ((a % 4) * 16 + b / 16),
     b64Char ((b % 16) * 4 + c / 64), b64Char (c % 64)] ++ b64EncodeChunks rest

/-- Regroup a run of 6-bit values into bytes, dropping leftover bits, as the
node base64 decoder does. -/
def b64DecodeVals : List Nat → List Nat
  | a :: b :: c :: d :: rest =>
    [a * 4 + b / 16, (b % 16) * 16 + c / 4, (c % 4) * 64 + d] ++ b64DecodeVals rest
  | [a, b, c] => [a * 4 + b / 16, (b % 16) * 16 + c / 4]
  | [a, b] => [a * 4 + b / 16]
  | _ => []

/-- Lenient base64 decoding: ignore every non-alphabet character (including
the '=' padding), then regroup the bits. -/
def b64Decode (s : List Char) : List Nat :=
  b64DecodeVals (s.filterMap b64Val)

/-- JS String.split on the colon delimiter. -/
def splitOnColon : List Char → List (List Char)
  | [] => [[]]
  | ch :: rest =>
    let r := splitOnColon rest
    if ch = ':' then [] :: r
    else
      match r with
      | s :: ss => (ch :: s) :: ss
      | [] => [[ch]]

/-- The authenticated-cipher primitive (node AES-256-GCM) abstracted: an
encryption body, a decryption body and a tag function, with the laws of an
ideal authenticated cipher — decryption inverts encryption, bodies map bytes
to bytes, and a tag never verifies against a different (iv, ciphertext)
pair under the same key. -/
structure GcmCipher where
  encBody : List Nat → List Nat → List Nat → List Nat
  decBody : List Nat → List Nat → List Nat → List Nat
  tagOf : List Nat → List Nat → List Nat → List Nat
  dec_enc : ∀ key iv pt, (∀ b ∈ pt, b < 256) →
    decBody key iv (encBody key iv pt) = pt
  enc_bytes : ∀ key iv pt, (∀ b ∈ pt, b < 256) →
    ∀ b ∈ encBody key iv pt, b < 256
  tag_bytes : ∀ key iv ct, ∀ b ∈ tagOf key iv ct, b < 256
  tag_inj : ∀ key iv ct iv2 ct2, (∀ b ∈ iv, b < 256) → (∀ b ∈ ct, b < 256) →
    (∀ b ∈ iv2, b < 256) → (∀ b ∈ ct2, b < 256) →
    tagOf key iv ct = tagOf key iv2 ct2 → iv = iv2 ∧ ct = ct2

/-- TokenEncryptionService.encrypt: empty in, empty out; otherwise cipher the
plaintext under a fresh IV and emit iv:authTag:ciphertext, base64 each. The
random IV is a parameter (crypto.randomBytes in the source). -/
def encrypt (c : GcmCipher) (key iv plaintext : List Nat) : List Char :=
  if plaintext = [] then []
  else
    let ct := c.encBody key iv plaintext
    let authTag := c.tagOf key iv ct
    b64EncodeChunks iv ++
      ':' :: (b64EncodeChunks authTag ++ ':' :: b64EncodeChunks ct)

/-- TokenEncryptionService.decrypt: empty in, empty out; reject inputs that
do not split into exactly three segments; decode the segments, verify the
tag, return the deciphered bytes; every failure is the single
failed-to-decrypt error. -/
def decrypt (c : GcmCipher) (key : List Nat) (encryptedData : List Char) :
    Except String (List Nat) :=
  if encryptedData = [] then Except.ok []
  else
    match splitOnColon encryptedData with
    | [ivB64, authTagB64, ctB64] =>
      let iv := b64Decode ivB64
      let authTag := b64Decode authTagB64
      let ct := b64Decode ctB64
      if authTag = c.tagOf key iv ct then Except.ok (c.decBody key iv ct)
      else Except.error "Failed to decrypt token"
    | _ => Except.error "Failed to decrypt token"

/-! ### Base64 and split lemmas -/

theorem b64Val_b64Char : ∀ n, n < 64 → b64Val (b64Char n) = some n := by
  decide

theorem b64Val_pad : b64Val '=' = none := by
  decide

theorem b64Char_ne_colon (n : Nat) : b64Char n ≠ ':' := by
  by_cases h : n < 64
  · revert n
    decide
  · unfold b64Char
    rw [List.getD_eq_default _ _ (by simp [b64Alphabet]; omega)]
    decide

theorem b64ValAux_lt : ∀ (l : List Char) (i : Nat) (c : Char) (n : Nat),
    b64ValAux l i c = some n → n < i + l.length := by
  intro l
  induction l with
  | nil => intro i c n h; simp [b64ValAux] at h
  | cons a rest ih =>
    intro i c n h
    unfold b64ValAux at h
    by_cases hc : c = a
    · rw [if_pos hc] at h
      injection h with h
      simp only [List.length_cons]
      omega
    · rw [if_neg hc] at h
      have := ih (i + 1) c n h
      simp only [List.length_cons]
      omega

theorem b64Val_lt {c : Char} {n : Nat} (h : b64Val c = some n) : n < 64 := by
  have := b64ValAux_lt b64Alphabet 0 c n h
  simpa [b64Alphabet] using this

theorem b64EncodeChunks_no_colon : ∀ bs, ':' ∉ b64EncodeChunks bs := by
  intro bs
  match bs with
  | [] => simp [b64EncodeChunks]
  | [a] =>
    simp [b64EncodeChunks]
    refine ⟨?_, ?_⟩ <;> exact fun h => b64Char_ne_colon _ h.symm
  | [a, b] =>
    simp [b64EncodeChunks]
    refine ⟨?_, ?_, ?_⟩ <;> exact fun h => b64Char_ne_colon _ h.symm
  | a :: b :: c :: rest =>
    intro hmem
    simp [b64EncodeChunks] at hmem
    rcases hmem with h | h | h | h | h
    · exact b64Char_ne_colon _ h.symm
    · exact b64Char_ne_colon _ h.symm
    · exact b64Char_ne_colon _ h.symm
    · exact b64Char_ne_colon _ h.symm
    · exact b64EncodeChunks_no_colon rest h

theorem b64_roundtrip : ∀ bs, (∀ b ∈ bs, b < 256) →
    b64Decode (b64EncodeChunks bs) = bs := by
  intro bs
  match bs with
  | [] => intro _; rfl
  | [a] =>
    intro hb
    have ha : a < 256 := hb a (by simp)
    unfold b64Decode b64EncodeChunks
    simp only [List.filterMap_cons, List.filterMap_nil,
      b64Val_b64Char (a / 4) (by omega),
      b64Val_b64Char ((a % 4) * 16) (by omega), b64Val_pad]
    unfold b64DecodeVals
    simp
    omega
  | [a, b] =>
    intro hb
    have ha : a < 256 := hb a (by simp)
    have hbb : b < 256 := hb b (by simp)
    unfold b64Decode b64EncodeChunks
    simp only [List.filterMap_cons, List.filterMap_nil,
      b64Val_b64Char (a / 4) (by omega),
      b64Val_b64Char ((a % 4) * 16 + b / 16) (by omega),
      b64Val_b64Char ((b % 16) * 4) (by omega), b64Val_pad]
    unfold b64DecodeVals
    simp
    constructor <;> omega
  | a :: b :: c :: rest =>
    intro hb
    have ha : a < 256 := hb a (by simp)
    have hbb : b < 256 := hb b (by simp)
    have hc : c < 256 := hb c (by simp)
    have ih := b64_roundtrip rest (fun x hx => hb x (by simp [hx]))
    unfold b64Decode b64EncodeChunks
    simp only [List.cons_append, List.nil_append, List.filterMap_cons,
      b64Val_b64Char (a / 4) (by omega),
      b64Val_b64Char ((a % 4) * 16 + b / 16) (by omega),
      b64Val_b64Char ((b % 16) * 4 + c / 64) (by omega),
      b64Val_b64Char (c % 64) (by omega)]
    unfold b64DecodeVals
    simp only [List.cons_append, List.nil_append]
    unfold b64Decode at ih
    rw [ih]
    have e1 : a / 4 * 4 + (a % 4 * 16 + b / 16) / 16 = a := by omega
    have e2 : (a % 4 * 16 + b / 16) % 16 * 16 + (b % 16 * 4 + c / 64) / 4 = b := by
      omega
    have e3 : (b % 16 * 4 + c / 64) % 4 * 64 + c % 64 = c := by omega
    rw [e1, e2, e3]

theorem b64DecodeVals_lt : ∀ vs, (∀ v ∈ vs, v < 64) →
    ∀ b ∈ b64DecodeVals vs, b < 256 := by
  intro vs
  match vs with
  | [] => intro _ b hb; simp [b64DecodeVals] at hb
  | [a] => intro _ b hb; simp [b64DecodeVals] at hb
  | [a, b0] =>
    intro hv b hb
    have := hv a (by simp)
    have := hv b0 (by simp)
    simp [b64DecodeVals] at hb
    omega
  | [a, b0, c] =>
    intro hv b hb
    have := hv a (by simp)
    have := hv b0 (by simp)
    have := hv c (by simp)
    simp [b64DecodeVals] at hb
    rcases hb with h | h <;> omega
  | a :: b0 :: c :: d :: rest =>
    intro hv b hb
    have ha := hv a (by simp)
    have hb0 := hv b0 (by simp)
    have hc := hv c (by simp)
    have hd := hv d (by simp)
    have ih := b64DecodeVals_lt rest (fun x hx => hv x (by simp [hx]))
    unfold b64DecodeVals at hb
    rw [List.cons_append, List.cons_append, List.cons_append, List.nil_append] at hb
    simp only [List.mem_cons] at hb
    rcases hb with h | h | h | h
    · omega
    · omega
    · omega
    · exact ih b h

theorem b64Decode_lt (s : List Char) : ∀ b ∈ b64Decode s, b < 256 := by
  unfold b64Decode
  apply b64DecodeVals_lt
  intro v hv
  obtain ⟨c, _, hc⟩ := List.mem_filterMap.mp hv
  exact b64Val_lt hc

theorem splitOnColon_ne_nil : ∀ s, splitOnColon s ≠ [] := by
  intro s
  match s with
  | [] => simp [splitOnColon]
  | ch :: rest =>
    unfold splitOnColon
    by_cases h : ch = ':'
    · simp [h]
    · simp only [h, if_false]
      cases hr : splitOnColon rest with
      | nil => simp
      | cons a l => simp

theorem splitOnColon_no_colon : ∀ s, ':' ∉ s → splitOnColon s = [s] := by
  intro s
  match s with
  | [] => intro _; rfl
  | ch :: rest =>
    intro h
    have hch : ¬ (ch = ':') := fun hc => h (by simp [hc])
    have hrest : ':' ∉ rest := fun hc => h (by simp [hc])
    unfold splitOnColon
    rw [if_neg hch, splitOnColon_no_colon rest hrest]

theorem splitOnColon_append : ∀ x y, ':' ∉ x →
    splitOnColon (x ++ ':' :: y) = x :: splitOnColon y := by
  intro x
  match x with
  | [] =>
    intro y _
    show splitOnColon (':' :: y) = [] :: splitOnColon y
    rw [splitOnColon]
    simp
  | ch :: rest =>
    intro y h
    have hch : ¬ (ch = ':') := fun hc => h (by simp [hc])
    have hrest : ':' ∉ rest := fun hc => h (by simp [hc])
    show splitOnColon (ch :: (rest ++ ':' :: y)) = (ch :: rest) :: splitOnColon y
    rw [splitOnColon]
    rw [splitOnColon_append rest y hrest]
    simp [hch]

theorem splitOnColon_length : ∀ s, (splitOnColon s).length = s.count ':' + 1 := by
  intro s
  match s with
  | [] => rfl
  | ch :: rest =>
    unfold splitOnColon
    by_cases h : ch = ':'
    · subst h
      simp [splitOnColon_length rest, List.count_cons]
    · rw [if_neg h]
      cases hr : splitOnColon rest with
      | nil => exact absurd hr (splitOnColon_ne_nil rest)
      | cons a l =>
        have := splitOnColon_length rest
        rw [hr] at this
        simp only [List.length_cons] at this
        simp [List.count_cons, h, this]

/-! ### A concrete cipher satisfying the GcmCipher laws, for witnesses -/

/-- Prefix-free byte-pair encoding used by the toy tag. -/
def escBytes (l : List Nat) : List Nat := l.flatMap (fun b => [1, b % 256])

/-- The toy tag: an injective encoding of the (iv, ciphertext) pair. -/
def toyTag (iv ct : List Nat) : List Nat := escBytes iv ++ 0 :: escBytes ct

theorem escBytes_cons (a : Nat) (l : List Nat) :
    escBytes (a :: l) = 1 :: a % 256 :: escBytes l := rfl

theorem escBytes_append_inj : ∀ iv iv2 ct ct2 : List Nat,
    (∀ b ∈ iv, b < 256) → (∀ b ∈ iv2, b < 256) →
    escBytes iv ++ 0 :: ct = escBytes iv2 ++ 0 :: ct2 → iv = iv2 ∧ ct = ct2 := by
  intro iv
  induction iv with
  | nil =>
    intro iv2 ct ct2 _ _ h
    cases iv2 with
    | nil =>
      simp only [escBytes, List.flatMap_nil, List.nil_append] at h
      injection h with _ h
      exact ⟨rfl, h⟩
    | cons b tl2 =>
      rw [escBytes_cons] at h
      simp [escBytes] at h
  | cons a tl ih =>
    intro iv2 ct ct2 hb hb2 h
    cases iv2 with
    | nil =>
      rw [escBytes_cons] at h
      simp [escBytes] at h
    | cons b tl2 =>
      rw [escBytes_cons, escBytes_cons] at h
      simp only [List.cons_append] at h
      injection h with _ h
      injection h with hm h
      have ha := hb a (by simp)
      have hb1 := hb2 b (by simp)
      have hab : a = b := by omega
      obtain ⟨hiv, hct⟩ := ih tl2 ct ct2 (fun x hx => hb x (by simp [hx]))
        (fun x hx => hb2 x (by simp [hx])) h
      exact ⟨by rw [hab, hiv], hct⟩

theorem escBytes_inj : ∀ l1 l2 : List Nat, (∀ b ∈ l1, b < 256) →
    (∀ b ∈ l2, b < 256) → escBytes l1 = escBytes l2 → l1 = l2 := by
  intro l1
  induction l1 with
  | nil =>
    intro l2 _ _ h
    cases l2 with
    | nil => rfl
    | cons b tl =>
      rw [escBytes_cons] at h
      simp [escBytes] at h
  | cons a tl ih =>
    intro l2 hb hb2 h
    cases l2 with
    | nil =>
      rw [escBytes_cons] at h
      simp [escBytes] at h
    | cons b tl2 =>
      rw [escBytes_cons, escBytes_cons] at h
      injection h with _ h
      injection h with hm h
      have ha := hb a (by simp)
      have hb1 := hb2 b (by simp)
      have hab : a = b := by omega
      rw [hab, ih tl2 (fun x hx => hb x (by simp [hx]))
        (fun x hx => hb2 x (by simp [hx])) h]

theorem toyTag_bytes (iv ct : List Nat) : ∀ b ∈ toyTag iv ct, b < 256 := by
  intro b hb
  unfold toyTag escBytes at hb
  rcases List.mem_append.mp hb with h | h
  · obtain ⟨x, _, hx⟩ := List.mem_flatMap.mp h
    simp at hx
    rcases hx with h1 | h1 <;> omega
  · rcases List.mem_cons.mp h with h1 | h1
    · omega
    · obtain ⟨x, _, hx⟩ := List.mem_flatMap.mp h1
      simp at hx
      rcases hx with h2 | h2 <;> omega

/-- The identity cipher with the injective toy tag: a concrete GcmCipher. -/
def toyCipher : GcmCipher where
  encBody := fun _ _ pt => pt
  decBody := fun _ _ ct => ct
  tagOf := fun _ iv ct => toyTag iv ct
  dec_enc := fun _ _ _ _ => rfl
  enc_bytes := fun _ _ _ h => h
  tag_bytes := fun _ iv ct => toyTag_bytes iv ct
  tag_inj := by
    intro _ iv ct iv2 ct2 hiv hct hiv2 hct2 h
    unfold toyTag at h
    obtain ⟨h1, h2⟩ := escBytes_append_inj iv iv2 (escBytes ct) (escBytes ct2)
      hiv hiv2 h
    exact ⟨h1, escBytes_inj ct ct2 hct hct2 h2⟩

/-! ### Claim C4: encrypt/decrypt round trip -/

theorem encrypt_ne_nil (c : GcmCipher) (key iv pt : List Nat) (h : pt ≠ []) :
    encrypt c key iv pt ≠ [] := by
  unfold encrypt
  rw [if_neg h]
  intro hc
  rcases List.append_eq_nil.mp hc with ⟨_, h2⟩
  exact List.cons_ne_nil _ _ h2

/-- C4: for every cipher satisfying the authenticated-cipher laws and every
byte string (the empty string and strings containing the colon delimiter
byte included), decrypt inverts encrypt under the same key; the empty string
maps to the empty string in both directions without touching the cipher. -/
theorem claim_C4_encrypt_decrypt_roundtrip (c : GcmCipher) (key iv pt : List Nat)
    (hiv : ∀ b ∈ iv, b < 256) (hpt : ∀ b ∈ pt, b < 256) :
    decrypt c key (encrypt c key iv pt) = Except.ok pt ∧
    encrypt c key iv [] = [] ∧
    decrypt c key [] = Except.ok [] := by
  refine ⟨?_, rfl, rfl⟩
  by_cases hnil : pt = []
  · subst hnil
    rfl
  · have hct : ∀ b ∈ c.encBody key iv pt, b < 256 := c.enc_bytes key iv pt hpt
    have htag : ∀ b ∈ c.tagOf key iv (c.encBody key iv pt), b < 256 :=
      c.tag_bytes key iv (c.encBody key iv pt)
    have henc : encrypt c key iv pt =
        b64EncodeChunks iv ++
          ':' :: (b64EncodeChunks (c.tagOf key iv (c.encBody key iv pt)) ++
            ':' :: b64EncodeChunks (c.encBody key iv pt)) := by
      unfold encrypt
      rw [if_neg hnil]
    have hsplit : splitOnColon (encrypt c key iv pt) =
        [b64EncodeChunks iv,
         b64EncodeChunks (c.tagOf key iv (c.encBody key iv pt)),
         b64EncodeChunks (c.encBody key iv pt)] := by
      rw [henc, splitOnColon_append _ _ (b64EncodeChunks_no_colon iv),
        splitOnColon_append _ _ (b64EncodeChunks_no_colon _),
        splitOnColon_no_colon _ (b64EncodeChunks_no_colon _)]
    unfold decrypt
    rw [if_neg (encrypt_ne_nil c key iv pt hnil), hsplit]
    show (if b64Decode (b64EncodeChunks (c.tagOf key iv (c.encBody key iv pt))) =
        c.tagOf key (b64Decode (b64EncodeChunks iv))
          (b64Decode (b64EncodeChunks (c.encBody key iv pt)))
      then Except.ok (c.decBody key (b64Decode (b64EncodeChunks iv))
        (b64Decode (b64EncodeChunks (c.encBody key iv pt))))
      else Except.error "Failed to decrypt token") = Except.ok pt
    rw [b64_roundtrip iv hiv, b64_roundtrip _ htag, b64_roundtrip _ hct,
      if_pos rfl, c.dec_enc key iv pt hpt]

/-- Witness for C4: a concrete round trip through the toy cipher of a byte
string containing the delimiter byte 58, plus the empty-string edge case. -/
theorem claim_C4_witness :
    decrypt toyCipher [7] (encrypt toyCipher [7] [2] [104, 105, 58]) =
      Except.ok [104, 105, 58] ∧
    encrypt toyCipher [7] [2] [] = [] ∧
    decrypt toyCipher [7] [] = Except.ok [] :=
  claim_C4_encrypt_decrypt_roundtrip toyCipher [7] [2] [104, 105, 58]
    (by decide) (by decide)

/-! ### Claim C5: malformed and tampered inputs -/

theorem append_cons_ne_nil (a : List Char) (ch : Char) (b : List Char) :
    a ++ ch :: b ≠ [] := by
  intro h
  rcases List.append_eq_nil.mp h with ⟨_, h2⟩
  exact List.cons_ne_nil _ _ h2

theorem not_mem_append_cons {ch : Char} {a b : List Char} (ha : ':' ∉ a)
    (hb : ':' ∉ b) (hch : ¬ (ch = ':')) : ':' ∉ a ++ ch :: b := by
  intro hc
  rcases List.mem_append.mp hc with h | h
  · exact ha h
  · rcases List.mem_cons.mp h with h | h
    · exact hch h.symm
    · exact hb h

theorem decrypt_not_three (c : GcmCipher) (key : List Nat) (s : List Char)
    (hne : s ≠ []) (hlen : (splitOnColon s).length ≠ 3) :
    decrypt c key s = Except.error "Failed to decrypt token" := by
  unfold decrypt
  rw [if_neg hne]
  cases h : splitOnColon s with
  | nil => rfl
  | cons a l =>
    cases l with
    | nil => rfl
    | cons b l2 =>
      cases l2 with
      | nil => rfl
      | cons d l3 =>
        cases l3 with
        | nil =>
          rw [h] at hlen
          simp at hlen
        | cons e l4 => rfl

theorem decrypt_three (c : GcmCipher) (key : List Nat) (t1 t2 t3 : List Char)
    (h1 : ':' ∉ t1) (h2 : ':' ∉ t2) (h3 : ':' ∉ t3) :
    decrypt c key (t1 ++ ':' :: (t2 ++ ':' :: t3)) =
      if b64Decode t2 = c.tagOf key (b64Decode t1) (b64Decode t3)
      then Except.ok (c.decBody key (b64Decode t1) (b64Decode t3))
      else Except.error "Failed to decrypt token" := by
  have hne : t1 ++ ':' :: (t2 ++ ':' :: t3) ≠ [] := append_cons_ne_nil _ _ _
  unfold decrypt
  rw [if_neg hne, splitOnColon_append _ _ h1, splitOnColon_append _ _ h2,
    splitOnColon_no_colon _ h3]

theorem app_cons_decomp : ∀ (xs ys u v : List Char) (ch : Char),
    xs ++ ys = u ++ ch :: v →
    (∃ x y, xs = x ++ ch :: y ∧ u = x ∧ v = y ++ ys) ∨
    (∃ u2, u = xs ++ u2 ∧ ys = u2 ++ ch :: v) := by
  intro xs
  induction xs with
  | nil =>
    intro ys u v ch h
    right
    exact ⟨u, rfl, h⟩
  | cons a tl ih =>
    intro ys u v ch h
    cases u with
    | nil =>
      simp only [List.cons_append, List.nil_append] at h
      injection h with ha hv
      left
      refine ⟨[], tl, ?_, rfl, hv.symm⟩
      rw [ha]
      rfl
    | cons b u2 =>
      simp only [List.cons_append] at h
      injection h with hab h
      rcases ih ys u2 v ch h with ⟨x, y, hxs, hu, hv⟩ | ⟨u3, hu, hy⟩
      · left
        refine ⟨a :: x, y, ?_, ?_, hv⟩
        · rw [List.cons_append, hxs]
        · rw [hu, ← hab]
      · right
        refine ⟨u3, ?_, hy⟩
        rw [List.cons_append, hu, ← hab]

/-- C5 amended: decrypt rejects every non-empty input that does not split
into exactly three segments; and for every valid blob altered in one byte,
decrypt either throws or returns the original plaintext unchanged — the
latter exactly when the altered base64 still decodes to the same bytes (the
node decoder ignores non-alphabet characters and dropped bits); corrupted or
partial plaintext is never returned. -/
theorem claim_C5_decrypt_rejects (c : GcmCipher) (key : List Nat) :
    (∀ s, s ≠ [] → (splitOnColon s).length ≠ 3 →
      decrypt c key s = Except.error "Failed to decrypt token") ∧
    (∀ iv pt u ch1 ch2 v, (∀ b ∈ iv, b < 256) → (∀ b ∈ pt, b < 256) → pt ≠ [] →
      encrypt c key iv pt = u ++ ch1 :: v → ch1 ≠ ch2 →
      (decrypt c key (u ++ ch2 :: v) = Except.error "Failed to decrypt token" ∨
       decrypt c key (u ++ ch2 :: v) = Except.ok pt)) := by
  constructor
  · exact fun s h1 h2 => decrypt_not_three c key s h1 h2
  · intro iv pt u ch1 ch2 v hiv hpt hnil henc hne
    have hctb : ∀ b ∈ c.encBody key iv pt, b < 256 := c.enc_bytes key iv pt hpt
    have htagb : ∀ b ∈ c.tagOf key iv (c.encBody key iv pt), b < 256 :=
      c.tag_bytes key iv (c.encBody key iv pt)
    have hIV := b64_roundtrip iv hiv
    have hTag := b64_roundtrip _ htagb
    have hCT := b64_roundtrip _ hctb
    have hnc1 := b64EncodeChunks_no_colon iv
    have hnc2 := b64EncodeChunks_no_colon (c.tagOf key iv (c.encBody key iv pt))
    have hnc3 := b64EncodeChunks_no_colon (c.encBody key iv pt)
    have hdec : c.decBody key iv (c.encBody key iv pt) = pt := c.dec_enc key iv pt hpt
    have heq : b64EncodeChunks iv ++
        ':' :: (b64EncodeChunks (c.tagOf key iv (c.encBody key iv pt)) ++
          ':' :: b64EncodeChunks (c.encBody key iv pt)) = u ++ ch1 :: v := by
      rw [← henc]
      unfold encrypt
      rw [if_neg hnil]
    rcases app_cons_decomp _ _ _ _ _ heq with ⟨x, y, hE1, hu, hv⟩ | ⟨u2, hu, hy⟩
    · -- the altered byte lies in the IV segment
      have hxc : ':' ∉ x := fun hc => hnc1 (by rw [hE1]; exact List.mem_append_left _ hc)
      have hyc : ':' ∉ y := fun hc => hnc1
        (by rw [hE1]; exact List.mem_append_right _ (by simp [hc]))
      rw [hu, hv]
      by_cases hch2 : ch2 = ':'
      · left
        subst hch2
        apply decrypt_not_three c key _ (append_cons_ne_nil _ _ _)
        rw [splitOnColon_append _ _ hxc, splitOnColon_append _ _ hyc,
          splitOnColon_append _ _ hnc2, splitOnColon_no_colon _ hnc3]
        simp
      · have harr : x ++ ch2 :: (y ++
            ':' :: (b64EncodeChunks (c.tagOf key iv (c.encBody key iv pt)) ++
              ':' :: b64EncodeChunks (c.encBody key iv pt))) =
            (x ++ ch2 :: y) ++
              ':' :: (b64EncodeChunks (c.tagOf key iv (c.encBody key iv pt)) ++
                ':' :: b64EncodeChunks (c.encBody key iv pt)) := by
          simp
        rw [harr, decrypt_three c key _ _ _
          (not_mem_append_cons hxc hyc hch2) hnc2 hnc3, hTag, hCT]
        by_cases hiv2 : b64Decode (x ++ ch2 :: y) = iv
        · right
          rw [hiv2, if_pos rfl, hdec]
        · left
          rw [if_neg ?_]
          intro hcontra
          obtain ⟨h1, _⟩ := c.tag_inj key iv (c.encBody key iv pt)
            (b64Decode (x ++ ch2 :: y)) (c.encBody key iv pt)
            hiv hctb (b64Decode_lt _) hctb hcontra
          exact hiv2 h1.symm
    · cases u2 with
      | nil =>
        -- the first delimiter itself is altered
        simp only [List.nil_append] at hy
        injection hy with hcol hv
        simp only [List.append_nil] at hu
        subst hu
        subst hv
        left
        have hch2 : ¬ (ch2 = ':') := fun hc => hne (hcol.symm.trans hc.symm)
        apply decrypt_not_three c key _ (append_cons_ne_nil _ _ _)
        have harr : b64EncodeChunks iv ++
            ch2 :: (b64EncodeChunks (c.tagOf key iv (c.encBody key iv pt)) ++
              ':' :: b64EncodeChunks (c.encBody key iv pt)) =
            (b64EncodeChunks iv ++
              ch2 :: b64EncodeChunks (c.tagOf key iv (c.encBody key iv pt))) ++
              ':' :: b64EncodeChunks (c.encBody key iv pt) := by
          simp
        rw [harr, splitOnColon_append _ _ (not_mem_append_cons hnc1 hnc2 hch2),
          splitOnColon_no_colon _ hnc3]
        simp
      | cons c0 u3 =>
        simp only [List.cons_append] at hy
        injection hy with hcol hy
        rcases app_cons_decomp _ _ _ _ _ hy with ⟨x, y, hE2, hu3, hv⟩ | ⟨u4, hu4, hy2⟩
        · -- the altered byte lies in the tag segment
          have hxc : ':' ∉ x := fun hc => hnc2
            (by rw [hE2]; exact List.mem_append_left _ hc)
          have hyc : ':' ∉ y := fun hc => hnc2
            (by rw [hE2]; exact List.mem_append_right _ (by simp [hc]))
          rw [hu, hu3, hv, ← hcol]
          by_cases hch2 : ch2 = ':'
          · left
            subst hch2
            apply decrypt_not_three c key _ ?_
            · have harr : (b64EncodeChunks iv ++ ':' :: x) ++
                  ':' :: (y ++ ':' :: b64EncodeChunks (c.encBody key iv pt)) =
                  b64EncodeChunks iv ++
                    ':' :: (x ++ ':' :: (y ++
                      ':' :: b64EncodeChunks (c.encBody key iv pt))) := by
                simp
              rw [harr, splitOnColon_append _ _ hnc1, splitOnColon_append _ _ hxc,
                splitOnColon_append _ _ hyc, splitOnColon_no_colon _ hnc3]
              simp
            · exact append_cons_ne_nil _ _ _
          · have harr : (b64EncodeChunks iv ++ ':' :: x) ++
                ch2 :: (y ++ ':' :: b64EncodeChunks (c.encBody key iv pt)) =
                b64EncodeChunks iv ++
                  ':' :: ((x ++ ch2 :: y) ++
                    ':' :: b64EncodeChunks (c.encBody key iv pt)) := by
              simp
            rw [harr, decrypt_three c key _ _ _ hnc1
              (not_mem_append_cons hxc hyc hch2) hnc3, hIV, hCT]
            by_cases htag2 : b64Decode (x ++ ch2 :: y) =
                c.tagOf key iv (c.encBody key iv pt)
            · right
              rw [if_pos htag2, hdec]
            · left
              rw [if_neg htag2]
        · cases u4 with
          | nil =>
            -- the second delimiter itself is altered
            simp only [List.nil_append] at hy2
            injection hy2 with hcol2 hv
            simp only [List.append_nil] at hu4
            subst hu4
            subst hv
            rw [hu, ← hcol]
            left
            have hch2 : ¬ (ch2 = ':') := fun hc => hne (hcol2.symm.trans hc.symm)
            apply decrypt_not_three c key _ (append_cons_ne_nil _ _ _)
            have harr : (b64EncodeChunks iv ++
                ':' :: b64EncodeChunks (c.tagOf key iv (c.encBody key iv pt))) ++
                ch2 :: b64EncodeChunks (c.encBody key iv pt) =
                b64EncodeChunks iv ++
                  ':' :: (b64EncodeChunks (c.tagOf key iv (c.encBody key iv pt)) ++
                    ch2 :: b64EncodeChunks (c.encBody key iv pt)) := by
              simp
            rw [harr, splitOnColon_append _ _ hnc1,
              splitOnColon_no_colon _ (not_mem_append_cons hnc2 hnc3 hch2)]
            simp
          | cons c1 u5 =>
            -- the altered byte lies in the ciphertext segment
            simp only [List.cons_append] at hy2
            injection hy2 with hcol2 hE3
            have hu5c : ':' ∉ u5 := fun hc => hnc3
              (by rw [hE3]; exact List.mem_append_left _ hc)
            have hvc : ':' ∉ v := fun hc => hnc3
              (by rw [hE3]; exact List.mem_append_right _ (by simp [hc]))
            rw [hu, hu4, ← hcol, ← hcol2]
            by_cases hch2 : ch2 = ':'
            · left
              subst hch2
              apply decrypt_not_three c key _ (append_cons_ne_nil _ _ _)
              have harr : (b64EncodeChunks iv ++
                  ':' :: (b64EncodeChunks (c.tagOf key iv (c.encBody key iv pt)) ++
                    ':' :: u5)) ++ ':' :: v =
                  b64EncodeChunks iv ++
                    ':' :: (b64EncodeChunks (c.tagOf key iv (c.encBody key iv pt)) ++
                      ':' :: (u5 ++ ':' :: v)) := by
                simp
              rw [harr, splitOnColon_append _ _ hnc1, splitOnColon_append _ _ hnc2,
                splitOnColon_append _ _ hu5c, splitOnColon_no_colon _ hvc]
              simp
            · have harr : (b64EncodeChunks iv ++
                  ':' :: (b64EncodeChunks (c.tagOf key iv (c.encBody key iv pt)) ++
                    ':' :: u5)) ++ ch2 :: v =
                  b64EncodeChunks iv ++
                    ':' :: (b64EncodeChunks (c.tagOf key iv (c.encBody key iv pt)) ++
                      ':' :: (u5 ++ ch2 :: v)) := by
                simp
              rw [harr, decrypt_three c key _ _ _ hnc1 hnc2
                (not_mem_append_cons hu5c hvc hch2), hIV, hTag]
              by_cases hct2 : b64Decode (u5 ++ ch2 :: v) = c.encBody key iv pt
              · right
                rw [hct2, if_pos rfl, hdec]
              · left
                rw [if_neg ?_]
                intro hcontra
                obtain ⟨_, h2⟩ := c.tag_inj key iv (c.encBody key iv pt)
                  iv (b64Decode (u5 ++ ch2 :: v))
                  hiv hctb hiv (b64Decode_lt _) hcontra
                exact hct2 h2.symm

/-- C5 counterexample: a valid blob of the toy cipher altered in exactly one
byte — the final base64 character of the ciphertext segment, whose low bits
the decoder discards — still decodes to the same bytes, so decrypt returns
the plaintext instead of throwing. The claim that decrypt throws on every
single-byte alteration is false. -/
theorem claim_C5_counterexample :
    encrypt toyCipher [7] [0] [1] =
      "AA==:AQAAAQE=:A".toList ++ 'Q' :: "==".toList ∧
    ('Q' : Char) ≠ 'R' ∧
    decrypt toyCipher [7] ("AA==:AQAAAQE=:A".toList ++ 'R' :: "==".toList) =
      Except.ok [1] := by
  refine ⟨by decide, by decide, ?_⟩
  rfl

/-- Witness for the amended C5: a colon-free input is rejected for not
splitting in three, and a one-byte ciphertext alteration that does change
the decoded bytes is rejected by the tag check. -/
theorem claim_C5_witness :
    decrypt toyCipher [7] "deadbeef".toList =
      Except.error "Failed to decrypt token" ∧
    (decrypt toyCipher [7] ("AA==:AQAAAQE=:A".toList ++ 'C' :: "==".toList) =
        Except.error "Failed to decrypt token" ∨
      decrypt toyCipher [7] ("AA==:AQAAAQE=:A".toList ++ 'C' :: "==".toList) =
        Except.ok [1]) := by
  constructor
  · exact (claim_C5_decrypt_rejects toyCipher [7]).1 _ (by decide) (by decide)
  · exact (claim_C5_decrypt_rejects toyCipher [7]).2 [0] [1] _ 'Q' 'C' _
      (by decide) (by decide) (by decide) (by decide) (by decide)

end Influencia
